import Mathlib

/-!
# Verification of the LICO core transforms

Shallow embedding of the LICO lossless image compressor's core stages
(`src/include/h_BMP_BIT.h` and the zero-elimination codec of
`src/include/h_CPUTimer.h`) together with proofs of the specification's
claims about them.

Buffers are `List Nat` whose elements are bytes (`< 256`); 32-bit signed
values are modelled as mathematical `Int` together with explicit
two's-complement wrapping where the C code truncates; 64-bit unsigned words
are `Nat` below `2 ^ 64` with shifts truncated modulo `2 ^ 64`.
-/

/-! ## Zero-elimination codec (`h_ZEencode` / `h_ZEdecode`)

The C functions are templated over a word type `T`; `bits = 8 * sizeof T`
is the word width.  Words are modelled as arbitrary `Nat` (only zeroness
matters), the input array as a `List Nat`.

`ZEencGroup` is the inner `for (j = 0; j < bits; j++)` loop of
`h_ZEencode` applied to the (at most `bits`) words of one subchunk: word
`j` of the group sets bit `j` of the bitmap word (`bm |= 1 << j`) when it
is nonzero, and nonzero words are appended to the dense stream in scan
order (`dataout[pos++] = val`). -/

def ZEencGroup : List Nat → Nat × List Nat
  | [] => (0, [])
  | w :: rest =>
      if w ≠ 0 then (2 * (ZEencGroup rest).1 + 1, w :: (ZEencGroup rest).2)
      else (2 * (ZEencGroup rest).1, (ZEencGroup rest).2)

/-- `h_ZEencode` from `h_CPUTimer.h`: the outer loop walks the input in
subchunks of `bits` words (the first `num - 1` subchunks are full, the last
one holds the remaining `insize - (num-1)*bits` words, mirrored here by
`take`/`drop`), producing one bitmap word per subchunk and the dense stream
of nonzero words.  Returns `(dataout, bmout)`; the returned `datasize` of
the C function is the length of the first component. -/
def h_ZEencode (bits : Nat) (inp : List Nat) : List Nat × List Nat :=
  if h : inp = [] ∨ bits = 0 then ([], [])
  else
    ((ZEencGroup (inp.take bits)).2 ++ (h_ZEencode bits (inp.drop bits)).1,
     (ZEencGroup (inp.take bits)).1 :: (h_ZEencode bits (inp.drop bits)).2)
termination_by inp.length
decreasing_by
  push_neg at h
  have h1 : 0 < inp.length := List.length_pos.mpr h.1
  have h2 : 0 < bits := Nat.pos_of_ne_zero h.2
  simp only [List.length_drop]
  omega

/-- Inner loop of `h_ZEdecode` for one subchunk: `k` is the number of
output words produced by this subchunk; bit `j` of the bitmap word
(successive `bm % 2` of the halved word, matching `(bm >> j) & 1`) selects
whether `datain[pos++]` or `0` is emitted.  Returns the emitted words and
the remaining dense stream. -/
def ZEdecGroup : Nat → Nat → List Nat → List Nat × List Nat
  | 0, _, ds => ([], ds)
  | k + 1, bm, ds =>
      if bm % 2 = 1 then
        match ds with
        | [] => (0 :: (ZEdecGroup k (bm / 2) []).1, (ZEdecGroup k (bm / 2) []).2)
        | d :: ds' => (d :: (ZEdecGroup k (bm / 2) ds').1, (ZEdecGroup k (bm / 2) ds').2)
      else (0 :: (ZEdecGroup k (bm / 2) ds).1, (ZEdecGroup k (bm / 2) ds).2)

/-- Outer loop of `h_ZEdecode`: one bitmap word per subchunk; every
subchunk but the last emits `bits` words, the last one stops after
`decsize` total outputs (`if (cnt >= decsize) break`), i.e. emits
`min bits cnt` words where `cnt` is the remaining output count. -/
def h_ZEdecode_go (bits : Nat) : List Nat → Nat → List Nat → List Nat
  | [], _, _ => []
  | bm :: rest, cnt, ds =>
      if cnt = 0 then []
      else
        (ZEdecGroup (min bits cnt) bm ds).1 ++
          h_ZEdecode_go bits rest (cnt - min bits cnt) (ZEdecGroup (min bits cnt) bm ds).2

/-- `h_ZEdecode` from `h_CPUTimer.h`. -/
def h_ZEdecode (bits decsize : Nat) (datain bmin : List Nat) : List Nat :=
  h_ZEdecode_go bits bmin decsize datain

/-- Bitmap indices written by `h_ZEencode` (`bmout[i]` for
`i = 0 .. num-2` in the main loop, then `bmout[num-1]` in the
unconditional final block), as `Int` so the `num = 0` case is visible. -/
def h_ZEencode_bmIndices (bits insize : Nat) : List Int :=
  (List.range ((insize + bits - 1) / bits - 1)).map Int.ofNat ++
    [(Int.ofNat ((insize + bits - 1) / bits)) - 1]

/-- Bitmap indices read by `h_ZEdecode` (`bmin[i]` for `i = 0 .. num-2`,
then `bmin[num-1]` unconditionally). -/
def h_ZEdecode_bmIndices (bits decsize : Nat) : List Int :=
  (List.range ((decsize + bits - 1) / bits - 1)).map Int.ofNat ++
    [(Int.ofNat ((decsize + bits - 1) / bits)) - 1]

section ZELemmas

/-- Decoding a group against the bitmap and dense words that encoding the
group produced recovers the group and passes the rest of the dense stream
through. -/
theorem ZEdecGroup_ZEencGroup (g : List Nat) (rest : List Nat) :
    ZEdecGroup g.length (ZEencGroup g).1 ((ZEencGroup g).2 ++ rest) = (g, rest) := by
  induction g with
  | nil => simp [ZEdecGroup, ZEencGroup]
  | cons w g ih =>
    by_cases hw : w = 0
    · subst hw
      simp only [ZEencGroup, ne_eq, not_true_eq_false, if_false, List.length_cons]
      have h2 : (2 * (ZEencGroup g).1) % 2 = 0 := by omega
      have h3 : (2 * (ZEencGroup g).1) / 2 = (ZEencGroup g).1 := by omega
      simp [ZEdecGroup, h2, h3, ih]
    · simp only [ZEencGroup, ne_eq, hw, not_false_eq_true, if_true, List.length_cons]
      have h2 : (2 * (ZEencGroup g).1 + 1) % 2 = 1 := by omega
      have h3 : (2 * (ZEencGroup g).1 + 1) / 2 = (ZEencGroup g).1 := by omega
      simp [ZEdecGroup, h2, h3, ih]

theorem ZEencGroup_fst_lt (g : List Nat) : (ZEencGroup g).1 < 2 ^ g.length := by
  induction g with
  | nil => simp [ZEencGroup]
  | cons w g ih =>
    by_cases hw : w = 0 <;> simp [ZEencGroup, hw, pow_succ] <;> omega

theorem ZEencGroup_snd_length (g : List Nat) :
    (ZEencGroup g).2.length = g.countP (fun w => decide (w ≠ 0)) := by
  induction g with
  | nil => simp [ZEencGroup]
  | cons w g ih =>
    by_cases hw : w = 0 <;> simp [ZEencGroup, hw, List.countP_cons, ih]

theorem ZEencGroup_testBit (g : List Nat) (j : Nat) :
    (ZEencGroup g).1.testBit j = decide (g.getD j 0 ≠ 0) := by
  induction g generalizing j with
  | nil => simp [ZEencGroup]
  | cons w g ih =>
    match j with
    | 0 =>
      by_cases hw : w = 0 <;>
        simp [ZEencGroup, hw, Nat.testBit, Nat.shiftRight, Nat.mul_add_mod]
    | j + 1 =>
      have hsh : ∀ b : Nat, Nat.testBit b (j + 1) = Nat.testBit (b / 2) j :=
        fun b => Nat.testBit_add_one b j
      by_cases hw : w = 0
      · simp only [ZEencGroup, ne_eq, hw, not_true_eq_false, if_false, hsh]
        have : 2 * (ZEencGroup g).1 / 2 = (ZEencGroup g).1 := by omega
        simp [this, ih]
      · simp only [ZEencGroup, ne_eq, hw, not_false_eq_true, if_true, hsh]
        have : (2 * (ZEencGroup g).1 + 1) / 2 = (ZEencGroup g).1 := by omega
        simp [this, ih]

theorem h_ZEencode_nil (bits : Nat) : h_ZEencode bits [] = ([], []) := by
  rw [h_ZEencode]; simp

theorem h_ZEencode_step (bits : Nat) (inp : List Nat) (h1 : inp ≠ []) (h2 : bits ≠ 0) :
    h_ZEencode bits inp =
      ((ZEencGroup (inp.take bits)).2 ++ (h_ZEencode bits (inp.drop bits)).1,
       (ZEencGroup (inp.take bits)).1 :: (h_ZEencode bits (inp.drop bits)).2) := by
  rw [h_ZEencode, dif_neg (not_or.mpr ⟨h1, h2⟩)]

/-- Decoding with `decsize = insize` inverts the encoder. -/
theorem ZE_roundtrip (bits : Nat) (hb : 1 ≤ bits) (inp : List Nat) :
    h_ZEdecode bits inp.length (h_ZEencode bits inp).1 (h_ZEencode bits inp).2 = inp := by
  generalize hn : inp.length = n
  induction n using Nat.strong_induction_on generalizing inp with
  | _ n ih =>
    subst hn
    rcases eq_or_ne inp [] with rfl | h
    · simp [h_ZEencode_nil, h_ZEdecode, h_ZEdecode_go]
    · rw [h_ZEencode_step bits inp h (by omega)]
      have hlen : inp.length ≠ 0 := by simpa using h
      show h_ZEdecode_go bits _ inp.length _ = inp
      rw [h_ZEdecode_go, if_neg hlen]
      have hmin : min bits inp.length = (inp.take bits).length := by
        simp [List.length_take]
      rw [hmin, ZEdecGroup_ZEencGroup (inp.take bits) (h_ZEencode bits (inp.drop bits)).1]
      have hrest : inp.length - (inp.take bits).length = (inp.drop bits).length := by
        rw [List.length_take, List.length_drop]
        rcases le_total bits inp.length with hh | hh <;> simp [Nat.min_def, hh] <;> omega
      rw [hrest]
      have hdec := ih (inp.drop bits).length
        (by simp only [List.length_drop]; omega) (inp.drop bits) rfl
      show inp.take bits ++ h_ZEdecode bits (inp.drop bits).length
        (h_ZEencode bits (inp.drop bits)).1 (h_ZEencode bits (inp.drop bits)).2 = inp
      rw [hdec, List.take_append_drop]

/-- The dense stream holds exactly the nonzero input words. -/
theorem h_ZEencode_dense_length (bits : Nat) (hb : 1 ≤ bits) (inp : List Nat) :
    (h_ZEencode bits inp).1.length = inp.countP (fun w => decide (w ≠ 0)) := by
  generalize hn : inp.length = n
  induction n using Nat.strong_induction_on generalizing inp with
  | _ n ih =>
    subst hn
    rcases eq_or_ne inp [] with rfl | h
    · simp [h_ZEencode_nil]
    · rw [h_ZEencode_step bits inp h (by omega)]
      have hrec := ih (inp.drop bits).length
        (by simp [List.length_drop]; have := List.length_pos.mpr h; omega)
        (inp.drop bits) rfl
      have hsplit : inp.countP (fun w => decide (w ≠ 0)) =
          (inp.take bits).countP (fun w => decide (w ≠ 0)) +
            (inp.drop bits).countP (fun w => decide (w ≠ 0)) := by
        conv_lhs => rw [← List.take_append_drop bits inp]
        rw [List.countP_append]
      simp only [List.length_append, ZEencGroup_snd_length, hrec, hsplit]

/-- The bitmap has `⌈insize / bits⌉` words. -/
theorem h_ZEencode_bitmap_length (bits : Nat) (hb : 1 ≤ bits) (inp : List Nat) :
    (h_ZEencode bits inp).2.length = (inp.length + bits - 1) / bits := by
  generalize hn : inp.length = n
  induction n using Nat.strong_induction_on generalizing inp with
  | _ n ih =>
    subst hn
    rcases eq_or_ne inp [] with rfl | h
    · rw [h_ZEencode_nil]
      show (0 : Nat) = (0 + bits - 1) / bits
      exact (Nat.div_eq_of_lt (by omega)).symm
    · rw [h_ZEencode_step bits inp h (by omega)]
      have hpos : 0 < inp.length := List.length_pos.mpr h
      have hrec := ih (inp.drop bits).length
        (by simp [List.length_drop]; omega) (inp.drop bits) rfl
      simp only [List.length_cons, hrec, List.length_drop]
      rcases le_or_lt bits inp.length with hle | hlt
      · rw [show inp.length + bits - 1 = (inp.length - bits + bits - 1) + bits by omega,
          Nat.add_div_right _ (by omega)]
      · rw [Nat.sub_eq_zero_of_le (le_of_lt hlt)]
        rw [Nat.div_eq_of_lt (by omega),
          Nat.div_eq_of_lt_le (k := 1) (by omega) (by omega)]

/-- Bit `j` of bitmap word `i` records whether input word `i * bits + j`
is nonzero (bits addressing positions beyond the input read as `0`, as do
bitmap words beyond the last). -/
theorem h_ZEencode_bitmap_testBit (bits : Nat) (hb : 1 ≤ bits) (inp : List Nat)
    (i j : Nat) (hj : j < bits) :
    ((h_ZEencode bits inp).2.getD i 0).testBit j =
      decide (inp.getD (i * bits + j) 0 ≠ 0) := by
  generalize hn : inp.length = n
  induction n using Nat.strong_induction_on generalizing inp i with
  | _ n ih =>
    subst hn
    rcases eq_or_ne inp [] with rfl | h
    · simp [h_ZEencode_nil]
    · rw [h_ZEencode_step bits inp h (by omega)]
      have hpos : 0 < inp.length := List.length_pos.mpr h
      match i with
      | 0 =>
        have : ((ZEencGroup (inp.take bits)).1 :: (h_ZEencode bits (inp.drop bits)).2).getD 0 0
            = (ZEencGroup (inp.take bits)).1 := rfl
        rw [this, ZEencGroup_testBit]
        have htk : (inp.take bits).getD j 0 = inp.getD j 0 := by
          simp [List.getD, List.getElem?_take_of_lt hj]
        rw [show 0 * bits + j = j by ring, htk]
      | i + 1 =>
        have hstep : ((ZEencGroup (inp.take bits)).1 ::
            (h_ZEencode bits (inp.drop bits)).2).getD (i + 1) 0
            = (h_ZEencode bits (inp.drop bits)).2.getD i 0 := rfl
        rw [hstep, ih (inp.drop bits).length (by simp [List.length_drop]; omega)
          (inp.drop bits) i rfl]
        have : (inp.drop bits).getD (i * bits + j) 0 = inp.getD ((i + 1) * bits + j) 0 := by
          simp [List.getD, List.getElem?_drop]
          ring_nf
        rw [this]

end ZELemmas

/-- C2: for every word width and input array (of length at least one, so
that the bitmap is nonempty — see C10 for the degenerate case), decoding
with `decsize = insize` the dense stream and bitmap produced by encoding
recovers the input exactly; the dense length equals the number of nonzero
words; and bit `j` of bitmap word `i` is set iff word `i * bits + j` of
the input is nonzero, bits beyond the input reading as `0`. -/
theorem claim_C2_ZE_roundtrip (bits : Nat) (hb : 1 ≤ bits) (inp : List Nat)
    (hne : 1 ≤ inp.length) :
    h_ZEdecode bits inp.length (h_ZEencode bits inp).1 (h_ZEencode bits inp).2 = inp ∧
    (h_ZEencode bits inp).1.length = inp.countP (fun w => decide (w ≠ 0)) ∧
    ∀ i j, j < bits →
      ((h_ZEencode bits inp).2.getD i 0).testBit j =
        decide (inp.getD (i * bits + j) 0 ≠ 0) :=
  ⟨ZE_roundtrip bits hb inp, h_ZEencode_dense_length bits hb inp,
    fun i j hj => h_ZEencode_bitmap_testBit bits hb inp i j hj⟩

/-- Witness for C2 at the spec's S4 scenario: `T = u8`,
`in = [0,5,0,0,7,0,0,0]`. -/
theorem claim_C2_ZE_roundtrip_witness :
    h_ZEdecode 8 ([0, 5, 0, 0, 7, 0, 0, 0] : List Nat).length
        (h_ZEencode 8 [0, 5, 0, 0, 7, 0, 0, 0]).1
        (h_ZEencode 8 [0, 5, 0, 0, 7, 0, 0, 0]).2 =
      [0, 5, 0, 0, 7, 0, 0, 0] :=
  (claim_C2_ZE_roundtrip 8 (by decide) [0, 5, 0, 0, 7, 0, 0, 0] (by decide)).1

/-- C7 as stated is false: with one zero word in a one-word input the
encoder emits `0` dense words plus `1` bitmap word, which is not strictly
smaller than the input length `1`, although a zero word exists. -/
theorem claim_C7_counterexample :
    ¬(((h_ZEencode 8 [0]).1.length + (h_ZEencode 8 [0]).2.length <
        ([0] : List Nat).length) ↔ 0 ∈ ([0] : List Nat)) := by
  have e1 : h_ZEencode 8 [0] = (([] : List Nat), [0]) := by
    rw [h_ZEencode_step 8 [0] (by simp) (by omega)]
    norm_num [ZEencGroup, h_ZEencode_nil]
  rw [e1]
  simp

/-- C7 (amended): the total output size (dense words plus bitmap words)
is strictly smaller than the input word count exactly when the number of
zero input words exceeds the number `⌈insize / bits⌉` of bitmap words. -/
theorem claim_C7_size_reduction (bits : Nat) (hb : 1 ≤ bits) (inp : List Nat) :
    ((h_ZEencode bits inp).1.length + (h_ZEencode bits inp).2.length < inp.length) ↔
      (h_ZEencode bits inp).2.length < inp.countP (fun w => decide (w = 0)) := by
  have h2 : ∀ l : List Nat,
      l.countP (fun w => decide (w ≠ 0)) + l.countP (fun w => decide (w = 0)) = l.length := by
    intro l
    induction l with
    | nil => simp
    | cons a l ihl =>
      by_cases ha : a = 0
      · subst ha
        have e1 : List.countP (fun w => decide (w ≠ 0)) (0 :: l)
            = List.countP (fun w => decide (w ≠ 0)) l := by
          rw [List.countP_cons]; norm_num
        have e2 : List.countP (fun w => decide (w = 0)) (0 :: l)
            = List.countP (fun w => decide (w = 0)) l + 1 := by
          rw [List.countP_cons]; norm_num
        rw [e1, e2, List.length_cons]
        omega
      · have e1 : List.countP (fun w => decide (w ≠ 0)) (a :: l)
            = List.countP (fun w => decide (w ≠ 0)) l + 1 := by
          rw [List.countP_cons]; simp [ha]
        have e2 : List.countP (fun w => decide (w = 0)) (a :: l)
            = List.countP (fun w => decide (w = 0)) l := by
          rw [List.countP_cons]; simp [ha]
        rw [e1, e2, List.length_cons]
        omega
  have h1 := h_ZEencode_dense_length bits hb inp
  have h3 := h2 inp
  omega

/-- Witness for C7 (amended): two zero bytes with `T = u8` do shrink. -/
theorem claim_C7_size_reduction_witness :
    ((h_ZEencode 8 [0, 0]).1.length + (h_ZEencode 8 [0, 0]).2.length <
        ([0, 0] : List Nat).length) ↔
      (h_ZEencode 8 [0, 0]).2.length < ([0, 0] : List Nat).countP (fun w => decide (w = 0)) :=
  claim_C7_size_reduction 8 (by decide) [0, 0]

/-- C10: encoder and decoder touch the same bitmap indices; for a
positive input length these are exactly `0 … num-1` and all lie inside the
declared bitmap length `num = ⌈len / bits⌉`, while for an empty input both
functions unconditionally access bitmap index `num - 1 = -1`, outside any
array. -/
theorem claim_C10_bitmap_indices (bits N : Nat) (hb : 1 ≤ bits) :
    h_ZEencode_bmIndices bits N = h_ZEdecode_bmIndices bits N ∧
    (1 ≤ N → h_ZEencode_bmIndices bits N =
      (List.range ((N + bits - 1) / bits)).map Int.ofNat) ∧
    ((∀ idx ∈ h_ZEencode_bmIndices bits N,
        0 ≤ idx ∧ idx < Int.ofNat ((N + bits - 1) / bits)) ↔ 1 ≤ N) ∧
    (N = 0 → (-1 : Int) ∈ h_ZEencode_bmIndices bits N ∧
      (-1 : Int) ∈ h_ZEdecode_bmIndices bits N) := by
  have hnum0 : (0 + bits - 1) / bits = 0 := Nat.div_eq_of_lt (by omega)
  have hnum1 : 1 ≤ N → 1 ≤ (N + bits - 1) / bits := by
    intro h
    rw [Nat.le_div_iff_mul_le (by omega)]
    omega
  refine ⟨rfl, ?_, ?_, ?_⟩
  · intro hN
    have h1 := hnum1 hN
    conv_rhs => rw [show (N + bits - 1) / bits = ((N + bits - 1) / bits - 1) + 1 by omega]
    rw [List.range_succ, List.map_append]
    unfold h_ZEencode_bmIndices
    congr 1
    simp only [List.map_cons, List.map_nil, List.cons.injEq, and_true, Int.ofNat_eq_coe]
    omega
  · constructor
    · intro hall
      by_contra hN
      have hz : N = 0 := by omega
      subst hz
      have hmem : (-1 : Int) ∈ h_ZEencode_bmIndices bits 0 := by
        unfold h_ZEencode_bmIndices
        rw [hnum0]
        norm_num
      exact absurd (hall (-1) hmem).1 (by norm_num)
    · intro hN idx hidx
      have h1 := hnum1 hN
      simp only [Int.ofNat_eq_coe]
      rcases List.mem_append.mp hidx with hmem | hmem
      · rcases List.mem_map.mp hmem with ⟨i, hi, rfl⟩
        have hlt := List.mem_range.mp hi
        simp only [Int.ofNat_eq_coe]
        constructor
        · exact Int.natCast_nonneg i
        · exact_mod_cast Nat.lt_of_lt_of_le hlt (by omega)
      · rw [List.mem_singleton] at hmem
        subst hmem
        simp only [Int.ofNat_eq_coe]
        constructor <;> [omega; omega]
  · intro hz
    subst hz
    refine ⟨?_, ?_⟩ <;>
      · simp only [h_ZEencode_bmIndices, h_ZEdecode_bmIndices]
        rw [hnum0]
        norm_num

/-- Witness for C10 at `bits = 8`, `N = 0`: the out-of-range index `-1`
is accessed. -/
theorem claim_C10_bitmap_indices_witness :
    (-1 : Int) ∈ h_ZEencode_bmIndices 8 0 ∧ (-1 : Int) ∈ h_ZEdecode_bmIndices 8 0 :=
  (claim_C10_bitmap_indices 8 0 (by decide)).2.2.2 rfl

/-! ## 32-bit two's-complement helpers

`int32_t` values are modelled as mathematical `Int`; where the C code's
bit-level operations matter the value's 32-bit two's-complement pattern
(`ofI32`) is manipulated as a `Nat` below `2 ^ 32` and read back with
`i32`. -/

/-- Two's-complement 32-bit pattern of an `int32_t` value. -/
def ofI32 (v : Int) : Nat := (v % 4294967296).toNat

/-- Signed `int32_t` value of a 32-bit pattern. -/
def i32 (p : Nat) : Int :=
  if p % 4294967296 < 2147483648 then ((p % 4294967296 : Nat) : Int)
  else ((p % 4294967296 : Nat) : Int) - 4294967296

/-- `<<` on a 32-bit pattern (truncated to 32 bits, as the stored
`int32_t` result is). -/
def shl32 (p k : Nat) : Nat := (p <<< k) % 4294967296

/-- Arithmetic `>> 31` of an `int32_t` bit pattern: all ones if the sign
bit is set, else zero. -/
def asr31 (p : Nat) : Nat :=
  if p % 4294967296 < 2147483648 then 0 else 4294967295

/-- Forward TCMS map of `h_BMP_BIT` (lines 171-173): on an `int32_t`
value `v`, `((v << 1) ^ ((v << 24) >> 31)) & 0xff`. -/
def tcms (v : Int) : Nat :=
  (shl32 (ofI32 v) 1 ^^^ asr31 (shl32 (ofI32 v) 24)) &&& 255

/-- Inverse TCMS map of `h_iBMP_BIT` (lines 292-294): on an `int32_t`
value `u` (in the program always a byte read from the scratch buffer, so
nonnegative and `>> 1` is the logical shift), `(u >> 1) ^ ((u << 31) >> 31)`. -/
def itcms (u : Nat) : Int := i32 ((u >>> 1) ^^^ asr31 (shl32 u 31))

/-- The byte a C cast `(byte)v` of an `int32_t` stores: the low 8 bits of
the two's-complement pattern. -/
def byteOf (v : Int) : Nat := (v % 256).toNat

section TCMSLemmas

theorem tcms_lt_256 (v : Int) : tcms v < 256 :=
  lt_of_le_of_lt (Nat.and_le_right) (by norm_num)

set_option maxRecDepth 100000 in
theorem tcms_itcms_byte : ∀ p : Nat, p < 256 →
    itcms (tcms ((p : Int) - 128)) = (p : Int) - 128 := by decide

set_option maxRecDepth 100000 in
theorem itcms_tcms_byte : ∀ u : Nat, u < 256 →
    -128 ≤ itcms u ∧ itcms u ≤ 127 ∧ tcms (itcms u) = u := by decide

/-- The forward TCMS value depends only on the argument's low byte
(`v << 24` discards the higher bits before the sign test, and the result
is masked to 8 bits). -/
def tcmsByte (b : Nat) : Nat := (2 * b % 256) ^^^ (if b < 128 then 0 else 255)

theorem shl32_one_and_255 (p : Nat) : shl32 p 1 &&& 255 = 2 * p % 256 := by
  unfold shl32
  rw [show (255 : Nat) = 2 ^ 8 - 1 by norm_num, Nat.and_pow_two_sub_one_eq_mod,
    Nat.shiftLeft_eq]
  norm_num
  omega

theorem shl32_24_sign (p : Nat) :
    asr31 (shl32 p 24) = if p % 256 < 128 then 0 else 4294967295 := by
  unfold asr31 shl32
  have h1 : (p <<< 24) % 4294967296 = p % 256 * 16777216 := by
    rw [Nat.shiftLeft_eq,
      show (2 : Nat) ^ 24 = 16777216 by norm_num,
      show (4294967296 : Nat) = 256 * 16777216 by norm_num, Nat.mul_mod_mul_right]
  have hlt : p % 256 * 16777216 < 4294967296 := by
    have := Nat.mod_lt p (show 0 < 256 by norm_num)
    omega
  rw [h1, Nat.mod_eq_of_lt hlt]
  rcases lt_or_ge (p % 256) 128 with h | h
  · rw [if_pos (by omega), if_pos h]
  · rw [if_neg (by omega), if_neg (by omega)]

theorem tcms_eq_tcmsByte (v : Int) : tcms v = tcmsByte (ofI32 v % 256) := by
  unfold tcms tcmsByte
  rw [Nat.and_xor_distrib_right, shl32_one_and_255, shl32_24_sign]
  have h1 : 2 * ofI32 v % 256 = 2 * (ofI32 v % 256) % 256 := by omega
  have h2 : (if ofI32 v % 256 < 128 then (0 : Nat) else 4294967295) &&& 255
      = (if ofI32 v % 256 < 128 then (0 : Nat) else 255) := by
    rcases lt_or_ge (ofI32 v % 256) 128 with h | h
    · rw [if_pos h, if_pos h]
      decide
    · rw [if_neg (Nat.not_lt.mpr h), if_neg (Nat.not_lt.mpr h)]
      decide
  rw [h1, h2]

/-- The pattern's low byte is the value's residue mod 256. -/
theorem ofI32_mod_256 (v : Int) : ((ofI32 v % 256 : Nat) : Int) = v % 256 := by
  unfold ofI32
  have ha : (0 : Int) ≤ v % 4294967296 := Int.emod_nonneg v (by norm_num)
  have hb : (v % 4294967296) % 256 = v % 256 :=
    Int.emod_emod_of_dvd v (by norm_num)
  rw [Int.ofNat_emod, Int.toNat_of_nonneg ha]
  exact_mod_cast hb

set_option maxRecDepth 100000 in
theorem itcms_tcmsByte_mod : ∀ b : Nat, b < 256 →
    itcms (tcmsByte b) % 256 = (b : Int) := by decide

/-- Key byte-level inversion: the inverse TCMS of the forward TCMS of any
`int32_t` value agrees with that value modulo 256 (only the low byte
survives the `& 0xff`, and its sign is taken from bit 7). -/
theorem itcms_tcms_mod (v : Int) : itcms (tcms v) % 256 = v % 256 := by
  rw [tcms_eq_tcmsByte]
  have hlt : ofI32 v % 256 < 256 := Nat.mod_lt _ (by norm_num)
  rw [itcms_tcmsByte_mod _ hlt, ofI32_mod_256]

end TCMSLemmas

/-- C4: for every signed 8-bit integer `s`, the inverse TCMS map applied
to the forward TCMS value recovers `s` exactly; the forward value is a
byte, and on bytes the two maps are mutually inverse, so TCMS is a
bijection between `[-128, 127]` and `[0, 255]`. -/
theorem claim_C4_tcms_bijection (s : Int) (h1 : -128 ≤ s) (h2 : s ≤ 127) :
    itcms (tcms s) = s ∧ tcms s < 256 ∧
    (∀ u : Nat, u < 256 → -128 ≤ itcms u ∧ itcms u ≤ 127 ∧ tcms (itcms u) = u) := by
  have hlt : (s + 128).toNat < 256 := by omega
  have h3 := tcms_itcms_byte (s + 128).toNat hlt
  rw [show ((s + 128).toNat : Int) - 128 = s by omega] at h3
  exact ⟨h3, tcms_lt_256 s, fun u hu => itcms_tcms_byte u hu⟩

/-- Witness for C4 at `s = -5` (TCMS value 9). -/
theorem claim_C4_tcms_bijection_witness : itcms (tcms (-5)) = -5 :=
  (claim_C4_tcms_bijection (-5) (by norm_num) (by norm_num)).1

/-! ## The 8×8 bit-matrix transpose (`BIT_1` / `iBIT_1`)

The three-layer butterfly of `h_BMP_BIT` lines 196-203 (and identically
`h_iBMP_BIT` lines 267-274) on a 64-bit word.  Each layer is a delta swap
`x ^ t ^ (t << s)` with `t = (x ^ (x >> s)) & mask`; the `uint64_t`
left-shift truncates to 64 bits. -/

/-- One butterfly layer (delta swap). -/
def deltaSwap (x mask s : Nat) : Nat :=
  x ^^^ ((x ^^^ (x >>> s)) &&& mask) ^^^
    ((((x ^^^ (x >>> s)) &&& mask) <<< s) % 18446744073709551616)

/-- The three-layer butterfly with the masks and shifts of the source. -/
def butterfly64 (x : Nat) : Nat :=
  deltaSwap (deltaSwap (deltaSwap x 0x00AA00AA00AA00AA 7) 0x0000CCCC0000CCCC 14)
    0x00000000F0F0F0F0 28

/-- Where a delta swap with mask `mask` and shift `s` takes bit `n` from:
from `n + s` on mask positions, from `n - s` on shifted-mask positions,
else from `n` itself. -/
def deltaSwapIdx (mask s n : Nat) : Nat :=
  if mask.testBit n then n + s
  else if s ≤ n ∧ mask.testBit (n - s) then n - s
  else n

section ButterflyLemmas

theorem deltaSwap_testBit (x mask s n : Nat)
    (hdisj : mask &&& (mask <<< s) = 0)
    (hms : mask <<< s < 18446744073709551616) :
    (deltaSwap x mask s).testBit n = x.testBit (deltaSwapIdx mask s n) := by
  have htle : ((x ^^^ (x >>> s)) &&& mask) <<< s ≤ mask <<< s := by
    rw [Nat.shiftLeft_eq, Nat.shiftLeft_eq]
    exact Nat.mul_le_mul_right _ (Nat.and_le_right)
  have hmod : ((((x ^^^ (x >>> s)) &&& mask) <<< s) % 18446744073709551616)
      = ((x ^^^ (x >>> s)) &&& mask) <<< s :=
    Nat.mod_eq_of_lt (lt_of_le_of_lt htle hms)
  have hdn : (mask.testBit n && (decide (s ≤ n) && mask.testBit (n - s))) = false := by
    have h0 : (mask &&& (mask <<< s)).testBit n = false := by
      rw [hdisj]
      exact Nat.zero_testBit n
    rwa [Nat.testBit_and, Nat.testBit_shiftLeft] at h0
  unfold deltaSwap deltaSwapIdx
  rw [hmod]
  simp only [Nat.testBit_xor, Nat.testBit_and, Nat.testBit_shiftLeft,
    Nat.testBit_shiftRight]
  rcases le_or_lt s n with hle | hlt
  · rw [show s + (n - s) = n by omega]
    cases hmn : mask.testBit n <;> cases hmns : mask.testBit (n - s) <;>
      cases hxn : x.testBit n <;> cases hxn2 : x.testBit (s + n) <;>
        cases hxn3 : x.testBit (n - s) <;>
          simp_all [show n + s = s + n by omega]
  · cases hmn : mask.testBit n <;> cases hxn : x.testBit n <;>
      cases hxn2 : x.testBit (s + n) <;>
        simp_all [show n + s = s + n by omega, show ¬(s ≤ n) by omega]

theorem butterfly64_testBit (x n : Nat) :
    (butterfly64 x).testBit n =
      x.testBit (deltaSwapIdx 0x00AA00AA00AA00AA 7
        (deltaSwapIdx 0x0000CCCC0000CCCC 14
          (deltaSwapIdx 0x00000000F0F0F0F0 28 n))) := by
  unfold butterfly64
  rw [deltaSwap_testBit _ _ _ _ (by decide) (by decide),
    deltaSwap_testBit _ _ _ _ (by decide) (by decide),
    deltaSwap_testBit _ _ _ _ (by decide) (by decide)]

set_option maxRecDepth 100000 in
/-- On bit positions below 64 the butterfly realises the 8×8 bit-matrix
transpose `8*j + i ↦ 8*i + j`. -/
theorem butterfly64_perm_lt : ∀ n : Nat, n < 64 →
    deltaSwapIdx 0x00AA00AA00AA00AA 7
      (deltaSwapIdx 0x0000CCCC0000CCCC 14
        (deltaSwapIdx 0x00000000F0F0F0F0 28 n)) = 8 * (n % 8) + n / 8 := by
  decide

theorem testBit_of_lt (m k n : Nat) (hm : m < 2 ^ k) (hn : k ≤ n) :
    m.testBit n = false :=
  Nat.testBit_lt_two_pow (lt_of_lt_of_le hm (Nat.pow_le_pow_right (by norm_num) hn))

theorem deltaSwapIdx_id (mask s n k : Nat) (hmk : mask < 2 ^ k)
    (h1 : k ≤ n) (h2 : k ≤ n - s) : deltaSwapIdx mask s n = n := by
  unfold deltaSwapIdx
  rw [if_neg (by rw [testBit_of_lt mask k n hmk h1]; exact Bool.false_ne_true),
    if_neg (by
      rintro ⟨-, hc⟩
      rw [testBit_of_lt mask k (n - s) hmk h2] at hc
      exact Bool.false_ne_true hc)]

theorem butterfly64_perm_ge (n : Nat) (hn : 64 ≤ n) :
    deltaSwapIdx 0x00AA00AA00AA00AA 7
      (deltaSwapIdx 0x0000CCCC0000CCCC 14
        (deltaSwapIdx 0x00000000F0F0F0F0 28 n)) = n := by
  rw [deltaSwapIdx_id 0x00000000F0F0F0F0 28 n 32 (by norm_num) (by omega) (by omega),
    deltaSwapIdx_id 0x0000CCCC0000CCCC 14 n 48 (by norm_num) (by omega) (by omega),
    deltaSwapIdx_id 0x00AA00AA00AA00AA 7 n 56 (by norm_num) (by omega) (by omega)]

/-- The butterfly transposes the 8×8 bit matrix: bit `i` of output byte
`j` is bit `j` of input byte `i`. -/
theorem butterfly64_transposes (x n : Nat) (hn : n < 64) :
    (butterfly64 x).testBit n = x.testBit (8 * (n % 8) + n / 8) := by
  rw [butterfly64_testBit, butterfly64_perm_lt n hn]

theorem butterfly64_testBit_ge (x n : Nat) (hn : 64 ≤ n) :
    (butterfly64 x).testBit n = x.testBit n := by
  rw [butterfly64_testBit, butterfly64_perm_ge n hn]

/-- The butterfly is an involution (each delta-swap layer is
self-inverse, and the realised bit permutation is the transpose, which is
an involution). -/
theorem butterfly64_involution (x : Nat) : butterfly64 (butterfly64 x) = x := by
  apply Nat.eq_of_testBit_eq
  intro n
  rcases lt_or_ge n 64 with hn | hn
  · rw [butterfly64_transposes _ n hn,
      butterfly64_transposes _ _ (by omega)]
    congr 1
    omega
  · rw [butterfly64_testBit_ge _ n hn, butterfly64_testBit_ge _ n hn]

/-- The butterfly maps 64-bit words to 64-bit words. -/
theorem butterfly64_lt (x : Nat) (hx : x < 18446744073709551616) :
    butterfly64 x < 18446744073709551616 := by
  have hstep : ∀ y mask s : Nat, y < 18446744073709551616 →
      deltaSwap y mask s < 18446744073709551616 := by
    intro y mask s hy
    unfold deltaSwap
    have h64 : (18446744073709551616 : Nat) = 2 ^ 64 := by norm_num
    rw [h64] at hy ⊢
    apply Nat.xor_lt_two_pow
    · apply Nat.xor_lt_two_pow hy
      calc (y ^^^ (y >>> s)) &&& mask ≤ y ^^^ (y >>> s) := Nat.and_le_left
        _ < 2 ^ 64 := Nat.xor_lt_two_pow hy
          (lt_of_le_of_lt
            (by rw [Nat.shiftRight_eq_div_pow]; exact Nat.div_le_self _ _) hy)
    · rw [← h64]
      exact lt_of_lt_of_le (Nat.mod_lt _ (by norm_num)) (by norm_num)
  unfold butterfly64
  exact hstep _ _ _ (hstep _ _ _ (hstep _ _ _ hx))

end ButterflyLemmas

/-- C5: for every 64-bit word, the three-layer butterfly produces the
8×8 bit-matrix transpose — bit `i` of output byte `y_j` equals bit `j` of
input byte `b_i` — and applying it twice is the identity. -/
theorem claim_C5_bit_transpose (x : Nat) (hx : x < 2 ^ 64) :
    (∀ i j, i < 8 → j < 8 →
      (butterfly64 x).testBit (8 * j + i) = x.testBit (8 * i + j)) ∧
    butterfly64 (butterfly64 x) = x := by
  constructor
  · intro i j hi hj
    rw [butterfly64_transposes x (8 * j + i) (by omega)]
    congr 1
    have h1 : (8 * j + i) % 8 = i := by omega
    have h2 : (8 * j + i) / 8 = j := by omega
    rw [h1, h2]
  · exact butterfly64_involution x

/-- Witness for C5 at the word `0x0102040810204080`. -/
theorem claim_C5_bit_transpose_witness :
    butterfly64 (butterfly64 0x0102040810204080) = 0x0102040810204080 :=
  (claim_C5_bit_transpose 0x0102040810204080 (by norm_num)).2

/-- C9 as stated is false: the bytes `80,40,20,10,08,04,02,01` form the
anti-diagonal bit matrix, which is symmetric, so the butterfly maps the
word to itself, not to `0xFF00000000000000`. -/
theorem claim_C9_counterexample :
    butterfly64 0x0102040810204080 ≠ 0xFF00000000000000 := by decide

/-- C9 (amended): the butterfly maps `0x0102040810204080` to itself (the
anti-diagonal matrix is its own transpose).  It is `0x8080808080808080`
whose transpose is `0xFF00000000000000`. -/
theorem claim_C9_transpose_value :
    butterfly64 0x0102040810204080 = 0x0102040810204080 ∧
    butterfly64 0x8080808080808080 = 0xFF00000000000000 := by decide

/-! ## BMP preprocessing (`h_BMP_BIT` / `h_iBMP_BIT`)

Buffers are `List Nat` of bytes; the C `size` argument is the buffer
length (the functions read but never write it).  Little-endian field
reads combine disjoint shifted bytes, so the source's `|` is addition
here; field writes extract the pattern's bytes.  Validator arithmetic on
`w`, `h` and the file size is exact `Int` arithmetic (faithful whenever
the C expressions do not overflow `int32_t`, which the theorems'
`2^31 - 1` length bound guarantees for accepted buffers). -/

/-- Byte `k` of a 32-bit pattern (`(byte)(val >> (8*k))`). -/
def b32 (p k : Nat) : Nat := p / 256 ^ k % 256

/-- The unsigned little-endian value of two buffer bytes. -/
def natLE2 (data : List Nat) (off : Nat) : Nat :=
  data.getD off 0 + 256 * data.getD (off + 1) 0

/-- The unsigned little-endian value of four buffer bytes. -/
def natLE4 (data : List Nat) (off : Nat) : Nat :=
  data.getD off 0 + 256 * data.getD (off + 1) 0 + 65536 * data.getD (off + 2) 0 +
    16777216 * data.getD (off + 3) 0

/-- `h_BMP_BIT_get2`: `(data[1] << 8) | data[0]` as an `int32_t` (always
nonnegative, the value fits 16 bits). -/
def h_BMP_BIT_get2 (data : List Nat) (off : Nat) : Int := (natLE2 data off : Int)

/-- `h_BMP_BIT_get4`: the four little-endian bytes read as a signed
`int32_t` (byte 3 carries the sign). -/
def h_BMP_BIT_get4 (data : List Nat) (off : Nat) : Int := i32 (natLE4 data off)

/-- `h_BMP_BIT_set2`: store the low 16 bits of `val` little-endian. -/
def h_BMP_BIT_set2 (data : List Nat) (off : Nat) (v : Int) : List Nat :=
  (data.set off (b32 (ofI32 v) 0)).set (off + 1) (b32 (ofI32 v) 1)

/-- `h_BMP_BIT_set4`: store the low 32 bits of `val` little-endian. -/
def h_BMP_BIT_set4 (data : List Nat) (off : Nat) (v : Int) : List Nat :=
  (((data.set off (b32 (ofI32 v) 0)).set (off + 1) (b32 (ofI32 v) 1)).set
    (off + 2) (b32 (ofI32 v) 2)).set (off + 3) (b32 (ofI32 v) 3)

/-- `(w*3 + 3) & ~3` — the AND with `~3` clears the low two bits of the
two's-complement value, i.e. floors to a multiple of 4; this is the
`width` (row stride) of `h_BMP_BIT`. -/
def bmpRowStride (w : Int) : Int := 4 * Int.fdiv (w * 3 + 3) 4

/-- The inner validation of `h_BMP_BIT` (lines 106-118), as the
conjunction of the checks (the source tests the disjunction of their
negations).  The reserved field at offset 6 is NOT checked (line 124 of
the source is commented out). -/
def bmpCheckWH (data : List Nat) (w h : Int) : Bool :=
  (data.getD 0 0 == 66) && (data.getD 1 0 == 77) &&
  (h_BMP_BIT_get4 data 2 == 54 + h * bmpRowStride w) &&
  (h_BMP_BIT_get4 data 10 == 54) &&
  (h_BMP_BIT_get4 data 14 == 40) &&
  (h_BMP_BIT_get2 data 26 == 1) &&
  (h_BMP_BIT_get2 data 28 == 24) &&
  (h_BMP_BIT_get4 data 30 == 0) &&
  (h_BMP_BIT_get4 data 34 == h * bmpRowStride w) &&
  (h_BMP_BIT_get4 data 46 == 0) &&
  (h_BMP_BIT_get4 data 50 == 0) &&
  ((data.length : Int) == 54 + h * bmpRowStride w) &&
  decide (1 ≤ w) && decide (1 ≤ h)

def bmpCheck (data : List Nat) : Bool :=
  bmpCheckWH data (h_BMP_BIT_get4 data 18) (h_BMP_BIT_get4 data 22)

/-- The full acceptance condition of the forward stage: at least 54 bytes
and all header checks pass. -/
def bmpAccept (data : List Nat) : Bool :=
  decide (54 ≤ data.length) && bmpCheck data

/-- Header neutralisation of `h_BMP_BIT` (lines 121-136), field by field
in source order (`+190` and `+179` are the byte-wrapped `- 'B'` and
`- 'M'`). -/
def bmpNeutralizeHeader (data : List Nat) (h width : Int) : List Nat :=
  let d0 := data.set 0 ((data.getD 0 0 + 190) % 256)
  let d1 := d0.set 1 ((d0.getD 1 0 + 179) % 256)
  let d2 := h_BMP_BIT_set4 d1 2 (h_BMP_BIT_get4 d1 2 - (h * width + 54))
  let d3 := h_BMP_BIT_set4 d2 10 (h_BMP_BIT_get4 d2 10 - 54)
  let d4 := h_BMP_BIT_set4 d3 14 (h_BMP_BIT_get4 d3 14 - 40)
  let d5 := h_BMP_BIT_set2 d4 26 (h_BMP_BIT_get2 d4 26 - 1)
  let d6 := h_BMP_BIT_set2 d5 28 (h_BMP_BIT_get2 d5 28 - 24)
  let d7 := h_BMP_BIT_set4 d6 34 (h_BMP_BIT_get4 d6 34 - h * width)
  h_BMP_BIT_set4 d7 42 (h_BMP_BIT_get4 d7 42 - h_BMP_BIT_get4 d7 38)

/-- Header restoration of `h_iBMP_BIT` (lines 239-254). -/
def bmpRestoreHeader (data : List Nat) (h width : Int) : List Nat :=
  let d0 := data.set 0 ((data.getD 0 0 + 66) % 256)
  let d1 := d0.set 1 ((d0.getD 1 0 + 77) % 256)
  let d2 := h_BMP_BIT_set4 d1 2 (h_BMP_BIT_get4 d1 2 + (h * width + 54))
  let d3 := h_BMP_BIT_set4 d2 10 (h_BMP_BIT_get4 d2 10 + 54)
  let d4 := h_BMP_BIT_set4 d3 14 (h_BMP_BIT_get4 d3 14 + 40)
  let d5 := h_BMP_BIT_set2 d4 26 (h_BMP_BIT_get2 d4 26 + 1)
  let d6 := h_BMP_BIT_set2 d5 28 (h_BMP_BIT_get2 d5 28 + 24)
  let d7 := h_BMP_BIT_set4 d6 34 (h_BMP_BIT_get4 d6 34 + h * width)
  h_BMP_BIT_set4 d7 42 (h_BMP_BIT_get4 d7 42 + h_BMP_BIT_get4 d7 38)

/-- The inverse stage's validation (line 236): every neutralised field
must read zero; width and height must be at least 1. -/
def ibmpCheckWH (data : List Nat) (w h : Int) : Bool :=
  (data.getD 0 0 == 0) && (data.getD 1 0 == 0) &&
  (h_BMP_BIT_get4 data 2 == 0) && (h_BMP_BIT_get4 data 10 == 0) &&
  (h_BMP_BIT_get4 data 14 == 0) && (h_BMP_BIT_get2 data 26 == 0) &&
  (h_BMP_BIT_get2 data 28 == 0) && (h_BMP_BIT_get4 data 30 == 0) &&
  (h_BMP_BIT_get4 data 34 == 0) && (h_BMP_BIT_get4 data 46 == 0) &&
  (h_BMP_BIT_get4 data 50 == 0) && decide (1 ≤ w) && decide (1 ≤ h)

def ibmpCheck (data : List Nat) : Bool :=
  ibmpCheckWH data (h_BMP_BIT_get4 data 18) (h_BMP_BIT_get4 data 22)

/-- Inner `x` loop of the forward pixel transform (lines 152-187): the
predictor triple `(p0,p1,p2)` is carried across columns (after column `x`
it holds that column's raw bytes); each column emits the TCMS-coded,
channel-differenced row deltas `(v0 - v1, v1, v2 - v1)`. -/
def encodeRowGo (pix : Nat → Nat) (rowOff : Nat) (p0 p1 p2 : Int) (x : Nat) :
    Nat → List (Nat × Nat × Nat)
  | 0 => []
  | rem + 1 =>
      (tcms (((pix (rowOff + x * 3) : Int) - p0) - ((pix (rowOff + x * 3 + 1) : Int) - p1)),
       tcms ((pix (rowOff + x * 3 + 1) : Int) - p1),
       tcms (((pix (rowOff + x * 3 + 2) : Int) - p2) -
         ((pix (rowOff + x * 3 + 1) : Int) - p1))) ::
      encodeRowGo pix rowOff (pix (rowOff + x * 3)) (pix (rowOff + x * 3 + 1))
        (pix (rowOff + x * 3 + 2)) (x + 1) rem

/-- One row of the forward pixel transform (lines 145-188): the initial
predictor is `(0,0,0)` for row 0 and the raw FIRST pixel of the previous
row (`bmp[(y-1)*width + c]`) otherwise. -/
def encodeRow (pix : Nat → Nat) (stride w y : Nat) : List (Nat × Nat × Nat) :=
  if y = 0 then encodeRowGo pix (y * stride) 0 0 0 0 w
  else
    encodeRowGo pix (y * stride) (pix ((y - 1) * stride))
      (pix ((y - 1) * stride + 1)) (pix ((y - 1) * stride + 2)) 0 w

/-- The scratch byte `tmp[idx]` after the forward pixel transform:
`tmp[k*(w*h) + y + x*h]` holds component `k` of column `x` of row `y`
(line 184-186). -/
def stageCtmp (pix : Nat → Nat) (stride w h : Nat) (idx : Nat) : Nat :=
  let t := (encodeRow pix stride w (idx % (w * h) % h)).getD (idx % (w * h) / h) (0, 0, 0)
  if idx / (w * h) = 0 then t.1 else if idx / (w * h) = 1 then t.2.1 else t.2.2

/-- Little-endian aggregation of `k` bytes into one machine word (the
`uint64_t` view `temp` over the byte buffer `tmp`). -/
def leWord (f : Nat → Nat) : Nat → Nat
  | 0 => 0
  | k + 1 => f 0 + 256 * leWord (fun i => f (i + 1)) k

/-- The pixel-region byte at offset `q` after the forward transform:
inside the `esize` aligned bytes, byte `q / (esize/8)` of the butterfly
of word `q % (esize/8)` (`bmp[pos/8 + i*(esize/8)] = x >> (i*8)`,
line 205); a verbatim copy of `tmp` for the `extra` leftover bytes
(lines 210-212); zero for the trailing `width*h - newsize*3` padding
bytes (lines 215-217). -/
def bmpEncodePix (pix : Nat → Nat) (stride w h : Nat) (q : Nat) : Nat :=
  let csize := 3 * (w * h)
  let esize := csize - csize % 8
  if q < esize then
    (butterfly64 (leWord
        (fun i => stageCtmp pix stride w h (8 * (q % (esize / 8)) + i)) 8) >>>
      (8 * (q / (esize / 8)))) % 256
  else if q < csize then stageCtmp pix stride w h q
  else 0

/-- `h_BMP_BIT` from `h_BMP_BIT.h` (forward stage): buffers shorter than
54 bytes or failing validation are returned unchanged (the C emits a
warning and leaves buffer and size untouched); otherwise the header is
neutralised and the whole pixel region `[54, 54 + width*h)` is rewritten. -/
def h_BMP_BIT (data : List Nat) : List Nat :=
  if data.length < 54 then data
  else
    if bmpCheck data then
      (bmpNeutralizeHeader data (h_BMP_BIT_get4 data 22)
          (bmpRowStride (h_BMP_BIT_get4 data 18))).take 54 ++
        (List.range ((bmpRowStride (h_BMP_BIT_get4 data 18)).toNat *
            (h_BMP_BIT_get4 data 22).toNat)).map
          (bmpEncodePix (fun t => data.getD (54 + t) 0)
            (bmpRowStride (h_BMP_BIT_get4 data 18)).toNat
            (h_BMP_BIT_get4 data 18).toNat (h_BMP_BIT_get4 data 22).toNat) ++
        data.drop (54 + (bmpRowStride (h_BMP_BIT_get4 data 18)).toNat *
            (h_BMP_BIT_get4 data 22).toNat)
    else data

/-- Scratch byte `tmp[idx]` rebuilt by `iBIT_1` (lines 266-281): for the
aligned region, byte `idx % 8` of the butterfly of the word gathered from
the eight strided bytes of group `idx / 8`; leftover bytes are copied
verbatim. -/
def ibitTmp (pixe : Nat → Nat) (csize idx : Nat) : Nat :=
  let esize := csize - csize % 8
  if idx < esize then
    (butterfly64 (leWord (fun i => pixe (idx / 8 + i * (esize / 8))) 8) >>>
      (8 * (idx % 8))) % 256
  else pixe idx

/-- The serial first-column pass of `h_iBMP_BIT` (lines 284-309): the
`int32_t` triple `(v0, v1, v2)` (also the carried `prev`) after
processing row `y`; the inverse TCMS and inverse channel difference are
applied to `tmp[k*newsize + y]` and the previous row's values are added. -/
def idecCol (tmpf : Nat → Nat) (wh : Nat) : Nat → Int × Int × Int
  | 0 =>
      (itcms (tmpf 0) + itcms (tmpf wh),
       itcms (tmpf wh),
       itcms (tmpf (2 * wh)) + itcms (tmpf wh))
  | y + 1 =>
      ((itcms (tmpf (y + 1)) + itcms (tmpf (wh + (y + 1)))) + (idecCol tmpf wh y).1,
       itcms (tmpf (wh + (y + 1))) + (idecCol tmpf wh y).2.1,
       (itcms (tmpf (2 * wh + (y + 1))) + itcms (tmpf (wh + (y + 1)))) +
         (idecCol tmpf wh y).2.2)

/-- The per-row `x` sweep of `h_iBMP_BIT` (lines 312-341): `x = 0` is the
carried-in first-column byte triple; each later column adds the decoded
deltas from `tmp[k*newsize + y + x*h]` to the carried `prev`. -/
def idecRow (tmpf : Nat → Nat) (wh hh y : Nat) (p0 p1 p2 : Int) : Nat → Int × Int × Int
  | 0 => (p0, p1, p2)
  | x + 1 =>
      ((itcms (tmpf (y + (x + 1) * hh)) + itcms (tmpf (wh + y + (x + 1) * hh))) +
        (idecRow tmpf wh hh y p0 p1 p2 x).1,
       itcms (tmpf (wh + y + (x + 1) * hh)) + (idecRow tmpf wh hh y p0 p1 p2 x).2.1,
       (itcms (tmpf (2 * wh + y + (x + 1) * hh)) + itcms (tmpf (wh + y + (x + 1) * hh))) +
         (idecRow tmpf wh hh y p0 p1 p2 x).2.2)

/-- Decoded pixel-region byte at offset `t` (row `y = t / stride`, byte
`r = t % stride` in the row): column 0 comes from the serial pass (its
byte-truncated write is what the row pass reads back as `prev`), later
pixels from the row sweep, and the per-row padding bytes `r ≥ 3*w` are
set to zero (lines 344-350). -/
def bmpDecodePix (pixe : Nat → Nat) (stride w h : Nat) (t : Nat) : Nat :=
  if t % stride < 3 * w then
    if t % stride % 3 = 0 then
      byteOf (idecRow (ibitTmp pixe (3 * (w * h))) (w * h) h (t / stride)
        (byteOf (idecCol (ibitTmp pixe (3 * (w * h))) (w * h) (t / stride)).1)
        (byteOf (idecCol (ibitTmp pixe (3 * (w * h))) (w * h) (t / stride)).2.1)
        (byteOf (idecCol (ibitTmp pixe (3 * (w * h))) (w * h) (t / stride)).2.2)
        (t % stride / 3)).1
    else if t % stride % 3 = 1 then
      byteOf (idecRow (ibitTmp pixe (3 * (w * h))) (w * h) h (t / stride)
        (byteOf (idecCol (ibitTmp pixe (3 * (w * h))) (w * h) (t / stride)).1)
        (byteOf (idecCol (ibitTmp pixe (3 * (w * h))) (w * h) (t / stride)).2.1)
        (byteOf (idecCol (ibitTmp pixe (3 * (w * h))) (w * h) (t / stride)).2.2)
        (t % stride / 3)).2.1
    else
      byteOf (idecRow (ibitTmp pixe (3 * (w * h))) (w * h) h (t / stride)
        (byteOf (idecCol (ibitTmp pixe (3 * (w * h))) (w * h) (t / stride)).1)
        (byteOf (idecCol (ibitTmp pixe (3 * (w * h))) (w * h) (t / stride)).2.1)
        (byteOf (idecCol (ibitTmp pixe (3 * (w * h))) (w * h) (t / stride)).2.2)
        (t % stride / 3)).2.2
  else 0

/-- `h_iBMP_BIT` from `h_BMP_BIT.h` (inverse stage). -/
def h_iBMP_BIT (data : List Nat) : List Nat :=
  if data.length < 54 then data
  else
    if ibmpCheck data then
      (bmpRestoreHeader data (h_BMP_BIT_get4 data 22)
          (bmpRowStride (h_BMP_BIT_get4 data 18))).take 54 ++
        (List.range ((bmpRowStride (h_BMP_BIT_get4 data 18)).toNat *
            (h_BMP_BIT_get4 data 22).toNat)).map
          (bmpDecodePix (fun u => data.getD (54 + u) 0)
            (bmpRowStride (h_BMP_BIT_get4 data 18)).toNat
            (h_BMP_BIT_get4 data 18).toNat (h_BMP_BIT_get4 data 22).toNat) ++
        data.drop (54 + (bmpRowStride (h_BMP_BIT_get4 data 18)).toNat *
            (h_BMP_BIT_get4 data 22).toNat)
    else data

section BMPHeaderLemmas

theorem getD_set_eq (l : List Nat) (i v : Nat) (h : i < l.length) :
    (l.set i v).getD i 0 = v := by
  simp [List.getD, List.getElem?_set_self', h]

theorem getD_set_ne (l : List Nat) (i j v : Nat) (h : i ≠ j) :
    (l.set i v).getD j 0 = l.getD j 0 := by
  simp [List.getD, List.getElem?_set_ne h]

theorem h_BMP_BIT_set2_length (l : List Nat) (off : Nat) (v : Int) :
    (h_BMP_BIT_set2 l off v).length = l.length := by
  simp [h_BMP_BIT_set2]

theorem h_BMP_BIT_set4_length (l : List Nat) (off : Nat) (v : Int) :
    (h_BMP_BIT_set4 l off v).length = l.length := by
  simp [h_BMP_BIT_set4]

theorem set4_getD_ne (l : List Nat) (off : Nat) (v : Int) (j : Nat)
    (hj : j < off ∨ off + 3 < j) :
    (h_BMP_BIT_set4 l off v).getD j 0 = l.getD j 0 := by
  unfold h_BMP_BIT_set4
  rw [getD_set_ne _ _ _ _ (by omega), getD_set_ne _ _ _ _ (by omega),
    getD_set_ne _ _ _ _ (by omega), getD_set_ne _ _ _ _ (by omega)]

theorem set2_getD_ne (l : List Nat) (off : Nat) (v : Int) (j : Nat)
    (hj : j < off ∨ off + 1 < j) :
    (h_BMP_BIT_set2 l off v).getD j 0 = l.getD j 0 := by
  unfold h_BMP_BIT_set2
  rw [getD_set_ne _ _ _ _ (by omega), getD_set_ne _ _ _ _ (by omega)]

theorem set4_getD_at (l : List Nat) (off : Nat) (v : Int) (k : Nat) (hk : k ≤ 3)
    (hlen : off + 3 < l.length) :
    (h_BMP_BIT_set4 l off v).getD (off + k) 0 = b32 (ofI32 v) k := by
  unfold h_BMP_BIT_set4
  interval_cases k
  · rw [getD_set_ne _ _ _ _ (by omega), getD_set_ne _ _ _ _ (by omega),
      getD_set_ne _ _ _ _ (by omega), Nat.add_zero,
      getD_set_eq _ _ _ (by first | omega | (simp only [List.length_set]; omega))]
  · rw [getD_set_ne _ _ _ _ (by omega), getD_set_ne _ _ _ _ (by omega),
      getD_set_eq _ _ _ (by first | omega | (simp only [List.length_set]; omega))]
  · rw [getD_set_ne _ _ _ _ (by omega), getD_set_eq _ _ _ (by first | omega | (simp only [List.length_set]; omega))]
  · rw [getD_set_eq _ _ _ (by first | omega | (simp only [List.length_set]; omega))]

theorem set2_getD_at (l : List Nat) (off : Nat) (v : Int) (k : Nat) (hk : k ≤ 1)
    (hlen : off + 1 < l.length) :
    (h_BMP_BIT_set2 l off v).getD (off + k) 0 = b32 (ofI32 v) k := by
  unfold h_BMP_BIT_set2
  interval_cases k
  · rw [getD_set_ne _ _ _ _ (by omega), Nat.add_zero,
      getD_set_eq _ _ _ (by first | omega | (simp only [List.length_set]; omega))]
  · rw [getD_set_eq _ _ _ (by first | omega | (simp only [List.length_set]; omega))]

theorem h_BMP_BIT_get4_set_ne (l : List Nat) (i v : Nat) (off : Nat)
    (hij : i < off ∨ off + 3 < i) :
    h_BMP_BIT_get4 (l.set i v) off = h_BMP_BIT_get4 l off := by
  unfold h_BMP_BIT_get4 natLE4
  rw [getD_set_ne _ _ _ _ (by omega), getD_set_ne _ _ _ _ (by omega),
    getD_set_ne _ _ _ _ (by omega), getD_set_ne _ _ _ _ (by omega)]

theorem h_BMP_BIT_get2_set_ne (l : List Nat) (i v : Nat) (off : Nat)
    (hij : i < off ∨ off + 1 < i) :
    h_BMP_BIT_get2 (l.set i v) off = h_BMP_BIT_get2 l off := by
  unfold h_BMP_BIT_get2 natLE2
  rw [getD_set_ne _ _ _ _ (by omega), getD_set_ne _ _ _ _ (by omega)]

theorem h_BMP_BIT_get4_set4_ne (l : List Nat) (o : Nat) (v : Int) (off : Nat)
    (hij : o + 3 < off ∨ off + 3 < o) :
    h_BMP_BIT_get4 (h_BMP_BIT_set4 l o v) off = h_BMP_BIT_get4 l off := by
  unfold h_BMP_BIT_set4
  rw [h_BMP_BIT_get4_set_ne _ _ _ _ (by omega), h_BMP_BIT_get4_set_ne _ _ _ _ (by omega),
    h_BMP_BIT_get4_set_ne _ _ _ _ (by omega), h_BMP_BIT_get4_set_ne _ _ _ _ (by omega)]

theorem h_BMP_BIT_get4_set2_ne (l : List Nat) (o : Nat) (v : Int) (off : Nat)
    (hij : o + 1 < off ∨ off + 3 < o) :
    h_BMP_BIT_get4 (h_BMP_BIT_set2 l o v) off = h_BMP_BIT_get4 l off := by
  unfold h_BMP_BIT_set2
  rw [h_BMP_BIT_get4_set_ne _ _ _ _ (by omega), h_BMP_BIT_get4_set_ne _ _ _ _ (by omega)]

theorem h_BMP_BIT_get2_set4_ne (l : List Nat) (o : Nat) (v : Int) (off : Nat)
    (hij : o + 3 < off ∨ off + 1 < o) :
    h_BMP_BIT_get2 (h_BMP_BIT_set4 l o v) off = h_BMP_BIT_get2 l off := by
  unfold h_BMP_BIT_set4
  rw [h_BMP_BIT_get2_set_ne _ _ _ _ (by omega), h_BMP_BIT_get2_set_ne _ _ _ _ (by omega),
    h_BMP_BIT_get2_set_ne _ _ _ _ (by omega), h_BMP_BIT_get2_set_ne _ _ _ _ (by omega)]

theorem h_BMP_BIT_get2_set2_ne (l : List Nat) (o : Nat) (v : Int) (off : Nat)
    (hij : o + 1 < off ∨ off + 1 < o) :
    h_BMP_BIT_get2 (h_BMP_BIT_set2 l o v) off = h_BMP_BIT_get2 l off := by
  unfold h_BMP_BIT_set2
  rw [h_BMP_BIT_get2_set_ne _ _ _ _ (by omega), h_BMP_BIT_get2_set_ne _ _ _ _ (by omega)]

end BMPHeaderLemmas

section BMPHeaderChain

theorem bmpNeutralizeHeader_length (data : List Nat) (h width : Int) :
    (bmpNeutralizeHeader data h width).length = data.length := by
  simp only [bmpNeutralizeHeader]
  simp [h_BMP_BIT_set4_length, h_BMP_BIT_set2_length]

theorem bmpNeutralizeHeader_getD_untouched (data : List Nat) (h width : Int) (j : Nat)
    (hj : (6 ≤ j ∧ j ≤ 9) ∨ (18 ≤ j ∧ j ≤ 25) ∨ (30 ≤ j ∧ j ≤ 33) ∨
      (38 ≤ j ∧ j ≤ 41) ∨ 46 ≤ j) :
    (bmpNeutralizeHeader data h width).getD j 0 = data.getD j 0 := by
  simp only [bmpNeutralizeHeader]
  rw [set4_getD_ne _ _ _ _ (by omega), set4_getD_ne _ _ _ _ (by omega),
    set2_getD_ne _ _ _ _ (by omega), set2_getD_ne _ _ _ _ (by omega),
    set4_getD_ne _ _ _ _ (by omega), set4_getD_ne _ _ _ _ (by omega),
    set4_getD_ne _ _ _ _ (by omega), getD_set_ne _ _ _ _ (by omega),
    getD_set_ne _ _ _ _ (by omega)]

theorem bmpNeutralizeHeader_getD_0 (data : List Nat) (h width : Int)
    (hlen : 54 ≤ data.length) :
    (bmpNeutralizeHeader data h width).getD 0 0 = (data.getD 0 0 + 190) % 256 := by
  simp only [bmpNeutralizeHeader]
  rw [set4_getD_ne _ _ _ _ (by omega), set4_getD_ne _ _ _ _ (by omega),
    set2_getD_ne _ _ _ _ (by omega), set2_getD_ne _ _ _ _ (by omega),
    set4_getD_ne _ _ _ _ (by omega), set4_getD_ne _ _ _ _ (by omega),
    set4_getD_ne _ _ _ _ (by omega), getD_set_ne _ _ _ _ (by omega),
    getD_set_eq _ _ _ (by omega)]

theorem bmpNeutralizeHeader_getD_1 (data : List Nat) (h width : Int)
    (hlen : 54 ≤ data.length) :
    (bmpNeutralizeHeader data h width).getD 1 0 = (data.getD 1 0 + 179) % 256 := by
  simp only [bmpNeutralizeHeader]
  rw [set4_getD_ne _ _ _ _ (by omega), set4_getD_ne _ _ _ _ (by omega),
    set2_getD_ne _ _ _ _ (by omega), set2_getD_ne _ _ _ _ (by omega),
    set4_getD_ne _ _ _ _ (by omega), set4_getD_ne _ _ _ _ (by omega),
    set4_getD_ne _ _ _ _ (by omega),
    getD_set_eq _ _ _ (by simp only [List.length_set]; omega),
    getD_set_ne _ _ _ _ (by omega)]

theorem bmpNeutralizeHeader_getD_2 (data : List Nat) (h width : Int) (k : Nat)
    (hk : k ≤ 3) (hlen : 54 ≤ data.length) :
    (bmpNeutralizeHeader data h width).getD (2 + k) 0 =
      b32 (ofI32 (h_BMP_BIT_get4 data 2 - (h * width + 54))) k := by
  simp only [bmpNeutralizeHeader]
  rw [set4_getD_ne _ _ _ _ (by omega), set4_getD_ne _ _ _ _ (by omega),
    set2_getD_ne _ _ _ _ (by omega), set2_getD_ne _ _ _ _ (by omega),
    set4_getD_ne _ _ _ _ (by omega), set4_getD_ne _ _ _ _ (by omega),
    set4_getD_at _ _ _ _ hk (by simp only [List.length_set]; omega),
    h_BMP_BIT_get4_set_ne _ _ _ _ (by omega), h_BMP_BIT_get4_set_ne _ _ _ _ (by omega)]

theorem bmpNeutralizeHeader_getD_10 (data : List Nat) (h width : Int) (k : Nat)
    (hk : k ≤ 3) (hlen : 54 ≤ data.length) :
    (bmpNeutralizeHeader data h width).getD (10 + k) 0 =
      b32 (ofI32 (h_BMP_BIT_get4 data 10 - 54)) k := by
  simp only [bmpNeutralizeHeader]
  rw [set4_getD_ne _ _ _ _ (by omega), set4_getD_ne _ _ _ _ (by omega),
    set2_getD_ne _ _ _ _ (by omega), set2_getD_ne _ _ _ _ (by omega),
    set4_getD_ne _ _ _ _ (by omega),
    set4_getD_at _ _ _ _ hk
      (by simp only [h_BMP_BIT_set4_length, List.length_set]; omega),
    h_BMP_BIT_get4_set4_ne _ _ _ _ (by omega),
    h_BMP_BIT_get4_set_ne _ _ _ _ (by omega), h_BMP_BIT_get4_set_ne _ _ _ _ (by omega)]

theorem bmpNeutralizeHeader_getD_14 (data : List Nat) (h width : Int) (k : Nat)
    (hk : k ≤ 3) (hlen : 54 ≤ data.length) :
    (bmpNeutralizeHeader data h width).getD (14 + k) 0 =
      b32 (ofI32 (h_BMP_BIT_get4 data 14 - 40)) k := by
  simp only [bmpNeutralizeHeader]
  rw [set4_getD_ne _ _ _ _ (by omega), set4_getD_ne _ _ _ _ (by omega),
    set2_getD_ne _ _ _ _ (by omega), set2_getD_ne _ _ _ _ (by omega),
    set4_getD_at _ _ _ _ hk
      (by simp only [h_BMP_BIT_set4_length, List.length_set]; omega),
    h_BMP_BIT_get4_set4_ne _ _ _ _ (by omega), h_BMP_BIT_get4_set4_ne _ _ _ _ (by omega),
    h_BMP_BIT_get4_set_ne _ _ _ _ (by omega), h_BMP_BIT_get4_set_ne _ _ _ _ (by omega)]

theorem bmpNeutralizeHeader_getD_26 (data : List Nat) (h width : Int) (k : Nat)
    (hk : k ≤ 1) (hlen : 54 ≤ data.length) :
    (bmpNeutralizeHeader data h width).getD (26 + k) 0 =
      b32 (ofI32 (h_BMP_BIT_get2 data 26 - 1)) k := by
  simp only [bmpNeutralizeHeader]
  rw [set4_getD_ne _ _ _ _ (by omega), set4_getD_ne _ _ _ _ (by omega),
    set2_getD_ne _ _ _ _ (by omega),
    set2_getD_at _ _ _ _ hk
      (by simp only [h_BMP_BIT_set4_length, List.length_set]; omega),
    h_BMP_BIT_get2_set4_ne _ _ _ _ (by omega), h_BMP_BIT_get2_set4_ne _ _ _ _ (by omega),
    h_BMP_BIT_get2_set4_ne _ _ _ _ (by omega),
    h_BMP_BIT_get2_set_ne _ _ _ _ (by omega), h_BMP_BIT_get2_set_ne _ _ _ _ (by omega)]

theorem bmpNeutralizeHeader_getD_28 (data : List Nat) (h width : Int) (k : Nat)
    (hk : k ≤ 1) (hlen : 54 ≤ data.length) :
    (bmpNeutralizeHeader data h width).getD (28 + k) 0 =
      b32 (ofI32 (h_BMP_BIT_get2 data 28 - 24)) k := by
  simp only [bmpNeutralizeHeader]
  rw [set4_getD_ne _ _ _ _ (by omega), set4_getD_ne _ _ _ _ (by omega),
    set2_getD_at _ _ _ _ hk
      (by simp only [h_BMP_BIT_set2_length, h_BMP_BIT_set4_length, List.length_set]; omega),
    h_BMP_BIT_get2_set2_ne _ _ _ _ (by omega),
    h_BMP_BIT_get2_set4_ne _ _ _ _ (by omega), h_BMP_BIT_get2_set4_ne _ _ _ _ (by omega),
    h_BMP_BIT_get2_set4_ne _ _ _ _ (by omega),
    h_BMP_BIT_get2_set_ne _ _ _ _ (by omega), h_BMP_BIT_get2_set_ne _ _ _ _ (by omega)]

theorem bmpNeutralizeHeader_getD_34 (data : List Nat) (h width : Int) (k : Nat)
    (hk : k ≤ 3) (hlen : 54 ≤ data.length) :
    (bmpNeutralizeHeader data h width).getD (34 + k) 0 =
      b32 (ofI32 (h_BMP_BIT_get4 data 34 - h * width)) k := by
  simp only [bmpNeutralizeHeader]
  rw [set4_getD_ne _ _ _ _ (by omega),
    set4_getD_at _ _ _ _ hk
      (by simp only [h_BMP_BIT_set2_length, h_BMP_BIT_set4_length, List.length_set]; omega),
    h_BMP_BIT_get4_set2_ne _ _ _ _ (by omega), h_BMP_BIT_get4_set2_ne _ _ _ _ (by omega),
    h_BMP_BIT_get4_set4_ne _ _ _ _ (by omega), h_BMP_BIT_get4_set4_ne _ _ _ _ (by omega),
    h_BMP_BIT_get4_set4_ne _ _ _ _ (by omega),
    h_BMP_BIT_get4_set_ne _ _ _ _ (by omega), h_BMP_BIT_get4_set_ne _ _ _ _ (by omega)]

theorem bmpNeutralizeHeader_getD_42 (data : List Nat) (h width : Int) (k : Nat)
    (hk : k ≤ 3) (hlen : 54 ≤ data.length) :
    (bmpNeutralizeHeader data h width).getD (42 + k) 0 =
      b32 (ofI32 (h_BMP_BIT_get4 data 42 - h_BMP_BIT_get4 data 38)) k := by
  simp only [bmpNeutralizeHeader]
  rw [set4_getD_at _ _ _ _ hk
      (by simp only [h_BMP_BIT_set2_length, h_BMP_BIT_set4_length, List.length_set]; omega),
    h_BMP_BIT_get4_set4_ne _ _ _ _ (by omega),
    h_BMP_BIT_get4_set2_ne _ _ _ _ (by omega), h_BMP_BIT_get4_set2_ne _ _ _ _ (by omega),
    h_BMP_BIT_get4_set4_ne _ _ _ _ (by omega), h_BMP_BIT_get4_set4_ne _ _ _ _ (by omega),
    h_BMP_BIT_get4_set4_ne _ _ _ _ (by omega),
    h_BMP_BIT_get4_set_ne _ _ _ _ (by omega), h_BMP_BIT_get4_set_ne _ _ _ _ (by omega),
    h_BMP_BIT_get4_set4_ne _ _ _ _ (by omega),
    h_BMP_BIT_get4_set2_ne _ _ _ _ (by omega), h_BMP_BIT_get4_set2_ne _ _ _ _ (by omega),
    h_BMP_BIT_get4_set4_ne _ _ _ _ (by omega), h_BMP_BIT_get4_set4_ne _ _ _ _ (by omega),
    h_BMP_BIT_get4_set4_ne _ _ _ _ (by omega),
    h_BMP_BIT_get4_set_ne _ _ _ _ (by omega), h_BMP_BIT_get4_set_ne _ _ _ _ (by omega)]

end BMPHeaderChain

section BMPHeaderChainRestore

theorem bmpRestoreHeader_length (data : List Nat) (h width : Int) :
    (bmpRestoreHeader data h width).length = data.length := by
  simp only [bmpRestoreHeader]
  simp [h_BMP_BIT_set4_length, h_BMP_BIT_set2_length]

theorem bmpRestoreHeader_getD_untouched (data : List Nat) (h width : Int) (j : Nat)
    (hj : (6 ≤ j ∧ j ≤ 9) ∨ (18 ≤ j ∧ j ≤ 25) ∨ (30 ≤ j ∧ j ≤ 33) ∨
      (38 ≤ j ∧ j ≤ 41) ∨ 46 ≤ j) :
    (bmpRestoreHeader data h width).getD j 0 = data.getD j 0 := by
  simp only [bmpRestoreHeader]
  rw [set4_getD_ne _ _ _ _ (by omega), set4_getD_ne _ _ _ _ (by omega),
    set2_getD_ne _ _ _ _ (by omega), set2_getD_ne _ _ _ _ (by omega),
    set4_getD_ne _ _ _ _ (by omega), set4_getD_ne _ _ _ _ (by omega),
    set4_getD_ne _ _ _ _ (by omega), getD_set_ne _ _ _ _ (by omega),
    getD_set_ne _ _ _ _ (by omega)]

theorem bmpRestoreHeader_getD_0 (data : List Nat) (h width : Int)
    (hlen : 54 ≤ data.length) :
    (bmpRestoreHeader data h width).getD 0 0 = (data.getD 0 0 + 66) % 256 := by
  simp only [bmpRestoreHeader]
  rw [set4_getD_ne _ _ _ _ (by omega), set4_getD_ne _ _ _ _ (by omega),
    set2_getD_ne _ _ _ _ (by omega), set2_getD_ne _ _ _ _ (by omega),
    set4_getD_ne _ _ _ _ (by omega), set4_getD_ne _ _ _ _ (by omega),
    set4_getD_ne _ _ _ _ (by omega), getD_set_ne _ _ _ _ (by omega),
    getD_set_eq _ _ _ (by omega)]

theorem bmpRestoreHeader_getD_1 (data : List Nat) (h width : Int)
    (hlen : 54 ≤ data.length) :
    (bmpRestoreHeader data h width).getD 1 0 = (data.getD 1 0 + 77) % 256 := by
  simp only [bmpRestoreHeader]
  rw [set4_getD_ne _ _ _ _ (by omega), set4_getD_ne _ _ _ _ (by omega),
    set2_getD_ne _ _ _ _ (by omega), set2_getD_ne _ _ _ _ (by omega),
    set4_getD_ne _ _ _ _ (by omega), set4_getD_ne _ _ _ _ (by omega),
    set4_getD_ne _ _ _ _ (by omega),
    getD_set_eq _ _ _ (by simp only [List.length_set]; omega),
    getD_set_ne _ _ _ _ (by omega)]

theorem bmpRestoreHeader_getD_2 (data : List Nat) (h width : Int) (k : Nat)
    (hk : k ≤ 3) (hlen : 54 ≤ data.length) :
    (bmpRestoreHeader data h width).getD (2 + k) 0 =
      b32 (ofI32 (h_BMP_BIT_get4 data 2 + (h * width + 54))) k := by
  simp only [bmpRestoreHeader]
  rw [set4_getD_ne _ _ _ _ (by omega), set4_getD_ne _ _ _ _ (by omega),
    set2_getD_ne _ _ _ _ (by omega), set2_getD_ne _ _ _ _ (by omega),
    set4_getD_ne _ _ _ _ (by omega), set4_getD_ne _ _ _ _ (by omega),
    set4_getD_at _ _ _ _ hk (by simp only [List.length_set]; omega),
    h_BMP_BIT_get4_set_ne _ _ _ _ (by omega), h_BMP_BIT_get4_set_ne _ _ _ _ (by omega)]

theorem bmpRestoreHeader_getD_10 (data : List Nat) (h width : Int) (k : Nat)
    (hk : k ≤ 3) (hlen : 54 ≤ data.length) :
    (bmpRestoreHeader data h width).getD (10 + k) 0 =
      b32 (ofI32 (h_BMP_BIT_get4 data 10 + 54)) k := by
  simp only [bmpRestoreHeader]
  rw [set4_getD_ne _ _ _ _ (by omega), set4_getD_ne _ _ _ _ (by omega),
    set2_getD_ne _ _ _ _ (by omega), set2_getD_ne _ _ _ _ (by omega),
    set4_getD_ne _ _ _ _ (by omega),
    set4_getD_at _ _ _ _ hk
      (by simp only [h_BMP_BIT_set4_length, List.length_set]; omega),
    h_BMP_BIT_get4_set4_ne _ _ _ _ (by omega),
    h_BMP_BIT_get4_set_ne _ _ _ _ (by omega), h_BMP_BIT_get4_set_ne _ _ _ _ (by omega)]

theorem bmpRestoreHeader_getD_14 (data : List Nat) (h width : Int) (k : Nat)
    (hk : k ≤ 3) (hlen : 54 ≤ data.length) :
    (bmpRestoreHeader data h width).getD (14 + k) 0 =
      b32 (ofI32 (h_BMP_BIT_get4 data 14 + 40)) k := by
  simp only [bmpRestoreHeader]
  rw [set4_getD_ne _ _ _ _ (by omega), set4_getD_ne _ _ _ _ (by omega),
    set2_getD_ne _ _ _ _ (by omega), set2_getD_ne _ _ _ _ (by omega),
    set4_getD_at _ _ _ _ hk
      (by simp only [h_BMP_BIT_set4_length, List.length_set]; omega),
    h_BMP_BIT_get4_set4_ne _ _ _ _ (by omega), h_BMP_BIT_get4_set4_ne _ _ _ _ (by omega),
    h_BMP_BIT_get4_set_ne _ _ _ _ (by omega), h_BMP_BIT_get4_set_ne _ _ _ _ (by omega)]

theorem bmpRestoreHeader_getD_26 (data : List Nat) (h width : Int) (k : Nat)
    (hk : k ≤ 1) (hlen : 54 ≤ data.length) :
    (bmpRestoreHeader data h width).getD (26 + k) 0 =
      b32 (ofI32 (h_BMP_BIT_get2 data 26 + 1)) k := by
  simp only [bmpRestoreHeader]
  rw [set4_getD_ne _ _ _ _ (by omega), set4_getD_ne _ _ _ _ (by omega),
    set2_getD_ne _ _ _ _ (by omega),
    set2_getD_at _ _ _ _ hk
      (by simp only [h_BMP_BIT_set4_length, List.length_set]; omega),
    h_BMP_BIT_get2_set4_ne _ _ _ _ (by omega), h_BMP_BIT_get2_set4_ne _ _ _ _ (by omega),
    h_BMP_BIT_get2_set4_ne _ _ _ _ (by omega),
    h_BMP_BIT_get2_set_ne _ _ _ _ (by omega), h_BMP_BIT_get2_set_ne _ _ _ _ (by omega)]

theorem bmpRestoreHeader_getD_28 (data : List Nat) (h width : Int) (k : Nat)
    (hk : k ≤ 1) (hlen : 54 ≤ data.length) :
    (bmpRestoreHeader data h width).getD (28 + k) 0 =
      b32 (ofI32 (h_BMP_BIT_get2 data 28 + 24)) k := by
  simp only [bmpRestoreHeader]
  rw [set4_getD_ne _ _ _ _ (by omega), set4_getD_ne _ _ _ _ (by omega),
    set2_getD_at _ _ _ _ hk
      (by simp only [h_BMP_BIT_set2_length, h_BMP_BIT_set4_length, List.length_set]; omega),
    h_BMP_BIT_get2_set2_ne _ _ _ _ (by omega),
    h_BMP_BIT_get2_set4_ne _ _ _ _ (by omega), h_BMP_BIT_get2_set4_ne _ _ _ _ (by omega),
    h_BMP_BIT_get2_set4_ne _ _ _ _ (by omega),
    h_BMP_BIT_get2_set_ne _ _ _ _ (by omega), h_BMP_BIT_get2_set_ne _ _ _ _ (by omega)]

theorem bmpRestoreHeader_getD_34 (data : List Nat) (h width : Int) (k : Nat)
    (hk : k ≤ 3) (hlen : 54 ≤ data.length) :
    (bmpRestoreHeader data h width).getD (34 + k) 0 =
      b32 (ofI32 (h_BMP_BIT_get4 data 34 + h * width)) k := by
  simp only [bmpRestoreHeader]
  rw [set4_getD_ne _ _ _ _ (by omega),
    set4_getD_at _ _ _ _ hk
      (by simp only [h_BMP_BIT_set2_length, h_BMP_BIT_set4_length, List.length_set]; omega),
    h_BMP_BIT_get4_set2_ne _ _ _ _ (by omega), h_BMP_BIT_get4_set2_ne _ _ _ _ (by omega),
    h_BMP_BIT_get4_set4_ne _ _ _ _ (by omega), h_BMP_BIT_get4_set4_ne _ _ _ _ (by omega),
    h_BMP_BIT_get4_set4_ne _ _ _ _ (by omega),
    h_BMP_BIT_get4_set_ne _ _ _ _ (by omega), h_BMP_BIT_get4_set_ne _ _ _ _ (by omega)]

theorem bmpRestoreHeader_getD_42 (data : List Nat) (h width : Int) (k : Nat)
    (hk : k ≤ 3) (hlen : 54 ≤ data.length) :
    (bmpRestoreHeader data h width).getD (42 + k) 0 =
      b32 (ofI32 (h_BMP_BIT_get4 data 42 + h_BMP_BIT_get4 data 38)) k := by
  simp only [bmpRestoreHeader]
  rw [set4_getD_at _ _ _ _ hk
      (by simp only [h_BMP_BIT_set2_length, h_BMP_BIT_set4_length, List.length_set]; omega),
    h_BMP_BIT_get4_set4_ne _ _ _ _ (by omega),
    h_BMP_BIT_get4_set2_ne _ _ _ _ (by omega), h_BMP_BIT_get4_set2_ne _ _ _ _ (by omega),
    h_BMP_BIT_get4_set4_ne _ _ _ _ (by omega), h_BMP_BIT_get4_set4_ne _ _ _ _ (by omega),
    h_BMP_BIT_get4_set4_ne _ _ _ _ (by omega),
    h_BMP_BIT_get4_set_ne _ _ _ _ (by omega), h_BMP_BIT_get4_set_ne _ _ _ _ (by omega),
    h_BMP_BIT_get4_set4_ne _ _ _ _ (by omega),
    h_BMP_BIT_get4_set2_ne _ _ _ _ (by omega), h_BMP_BIT_get4_set2_ne _ _ _ _ (by omega),
    h_BMP_BIT_get4_set4_ne _ _ _ _ (by omega), h_BMP_BIT_get4_set4_ne _ _ _ _ (by omega),
    h_BMP_BIT_get4_set4_ne _ _ _ _ (by omega),
    h_BMP_BIT_get4_set_ne _ _ _ _ (by omega), h_BMP_BIT_get4_set_ne _ _ _ _ (by omega)]

end BMPHeaderChainRestore

section BMPDigits

theorem getD_append_left (l r : List Nat) (i : Nat) (h : i < l.length) :
    (l ++ r).getD i 0 = l.getD i 0 := by
  simp [List.getD, List.getElem?_append, h]

theorem getD_take (l : List Nat) (n j : Nat) (h : j < n) :
    (l.take n).getD j 0 = l.getD j 0 := by
  simp [List.getD, List.getElem?_take_of_lt h]

theorem ofI32_lt (v : Int) : ofI32 v < 4294967296 := by
  unfold ofI32
  omega

theorem ofI32_i32 (p : Nat) (hp : p < 4294967296) : ofI32 (i32 p) = p := by
  unfold ofI32 i32
  split <;> omega

theorem i32_eq_zero (p : Nat) (hp : p < 4294967296) : i32 p = 0 ↔ p = 0 := by
  unfold i32
  split <;> omega

theorem natLE4_lt (l : List Nat) (off : Nat)
    (h0 : l.getD off 0 < 256) (h1 : l.getD (off + 1) 0 < 256)
    (h2 : l.getD (off + 2) 0 < 256) (h3 : l.getD (off + 3) 0 < 256) :
    natLE4 l off < 4294967296 := by
  unfold natLE4
  omega

theorem natLE2_lt (l : List Nat) (off : Nat)
    (h0 : l.getD off 0 < 256) (h1 : l.getD (off + 1) 0 < 256) :
    natLE2 l off < 65536 := by
  unfold natLE2
  omega

theorem natLE4_digit (l : List Nat) (off : Nat) (k : Nat) (hk : k ≤ 3)
    (h0 : l.getD off 0 < 256) (h1 : l.getD (off + 1) 0 < 256)
    (h2 : l.getD (off + 2) 0 < 256) (h3 : l.getD (off + 3) 0 < 256) :
    b32 (natLE4 l off) k = l.getD (off + k) 0 := by
  unfold b32 natLE4
  interval_cases k <;>
    simp only [pow_zero, pow_one, Nat.div_one, Nat.add_zero,
      show (256 : Nat) ^ 2 = 65536 by norm_num,
      show (256 : Nat) ^ 3 = 16777216 by norm_num] <;> omega

theorem natLE2_digit (l : List Nat) (off : Nat) (k : Nat) (hk : k ≤ 1)
    (h0 : l.getD off 0 < 256) (h1 : l.getD (off + 1) 0 < 256) :
    b32 (natLE2 l off) k = l.getD (off + k) 0 := by
  unfold b32 natLE2
  interval_cases k <;> simp only [pow_zero, pow_one, Nat.div_one, Nat.add_zero] <;> omega

theorem b32_recompose (p : Nat) (hp : p < 4294967296) :
    b32 p 0 + 256 * b32 p 1 + 65536 * b32 p 2 + 16777216 * b32 p 3 = p := by
  unfold b32
  norm_num
  omega

theorem b32_recompose2 (p : Nat) :
    b32 p 0 + 256 * b32 p 1 = p % 65536 := by
  unfold b32
  norm_num
  omega

/-- Re-adding the constant that neutralisation subtracted recovers the
original 32-bit pattern. -/
theorem set4_roundtrip (q : Nat) (c : Int) (hq : q < 4294967296) :
    ofI32 (i32 (ofI32 (i32 q - c)) + c) = q := by
  unfold i32 ofI32
  split <;> split <;> omega

/-- The 16-bit analogue (the stored pattern is read back modulo `2^16`). -/
theorem set2_roundtrip (q : Nat) (c : Int) (hq : q < 65536) (k : Nat) (hk : k ≤ 1) :
    b32 (ofI32 ((((ofI32 ((q : Int) - c)) % 65536 : Nat) : Int) + c)) k = b32 q k := by
  unfold b32 ofI32
  interval_cases k <;> norm_num <;> omega

end BMPDigits

/-- A 58-byte buffer in the supported subset: a 1×1 image (`row_stride =
4`, one padding byte, here zero) with pixel `(10, 20, 30)` and all
optional fields zero. -/
def bmpSample : List Nat :=
  [66, 77, 58, 0, 0, 0, 0, 0, 0, 0, 54, 0, 0, 0, 40, 0, 0, 0,
   1, 0, 0, 0, 1, 0, 0, 0, 1, 0, 24, 0, 0, 0, 0, 0, 4, 0, 0, 0,
   0, 0, 0, 0, 0, 0, 0, 0, 0, 0, 0, 0, 0, 0, 0, 0, 10, 20, 30, 0]

/-- The same buffer with a nonzero reserved field at offset 6. -/
def bmpSampleReserved : List Nat :=
  [66, 77, 58, 0, 0, 0, 1, 0, 0, 0, 54, 0, 0, 0, 40, 0, 0, 0,
   1, 0, 0, 0, 1, 0, 0, 0, 1, 0, 24, 0, 0, 0, 0, 0, 4, 0, 0, 0,
   0, 0, 0, 0, 0, 0, 0, 0, 0, 0, 0, 0, 0, 0, 0, 0, 10, 20, 30, 0]

/-- The same buffer with a nonzero padding byte (offset 57, the one
`row_stride - 3*w` pad byte of the single row). -/
def bmpSamplePad : List Nat :=
  [66, 77, 58, 0, 0, 0, 0, 0, 0, 0, 54, 0, 0, 0, 40, 0, 0, 0,
   1, 0, 0, 0, 1, 0, 0, 0, 1, 0, 24, 0, 0, 0, 0, 0, 4, 0, 0, 0,
   0, 0, 0, 0, 0, 0, 0, 0, 0, 0, 0, 0, 0, 0, 0, 0, 10, 20, 30, 7]

set_option maxRecDepth 100000 in
/-- C3 as stated is false: the validator never reads the reserved field
at offset 6 (that line of the source is commented out), so a buffer that
is valid except for a nonzero reserved field is still mutated. -/
theorem claim_C3_counterexample :
    bmpSampleReserved.getD 6 0 = 1 ∧ h_BMP_BIT bmpSampleReserved ≠ bmpSampleReserved := by
  constructor
  · rfl
  · decide

set_option maxRecDepth 100000 in
/-- C3 (amended): `h_BMP_BIT` mutates the buffer iff the buffer has at
least 54 bytes and every condition the validator actually checks holds —
the reserved fields at offset 6 are NOT among them — and on any violation
it leaves every byte (and the never-written size) unchanged.  The length
bound keeps the `int32_t` size argument faithful. -/
theorem claim_C3_mutation_iff (data : List Nat)
    (hlen : (data.length : Int) ≤ 2147483647) :
    h_BMP_BIT data ≠ data ↔ (54 ≤ data.length ∧ bmpCheck data = true) := by
  constructor
  · intro hne
    by_contra hcon
    apply hne
    unfold h_BMP_BIT
    rcases lt_or_ge data.length 54 with hl | hl
    · rw [if_pos hl]
    · rw [if_neg (by omega)]
      have hb : bmpCheck data = false := by
        rcases Bool.eq_false_or_eq_true (bmpCheck data) with hb | hb
        · exact absurd ⟨hl, hb⟩ hcon
        · exact hb
      rw [hb]
      simp
  · rintro ⟨hl, hb⟩ heq
    have hb0 : data.getD 0 0 = 66 := by
      unfold bmpCheck bmpCheckWH at hb
      simp only [Bool.and_eq_true, beq_iff_eq] at hb
      exact hb.1.1.1.1.1.1.1.1.1.1.1.1.1
    have hout : (h_BMP_BIT data).getD 0 0 = 0 := by
      unfold h_BMP_BIT
      rw [if_neg (by omega), if_pos hb]
      rw [List.append_assoc, getD_append_left _ _ _
        (by rw [List.length_take, bmpNeutralizeHeader_length]; omega),
        getD_take _ _ _ (by omega), bmpNeutralizeHeader_getD_0 _ _ _ hl, hb0]
    rw [heq, hb0] at hout
    omega

set_option maxRecDepth 100000 in
/-- Witness for C3 at the valid sample buffer: it is mutated. -/
theorem claim_C3_mutation_iff_witness : h_BMP_BIT bmpSample ≠ bmpSample :=
  (claim_C3_mutation_iff bmpSample (by decide)).mpr (by decide)

section BMPAccept

theorem wf_getD (data : List Nat) (hwf : ∀ b ∈ data, b < 256) (j : Nat) :
    data.getD j 0 < 256 := by
  rcases lt_or_ge j data.length with hj | hj
  · rw [List.getD_eq_getElem data 0 hj]
    exact hwf _ (List.getElem_mem hj)
  · rw [List.getD_eq_default _ _ (by omega)]
    norm_num

/-- Unpacking the acceptance condition into its constituent facts. -/
theorem bmpAccept_spec (data : List Nat) (hacc : bmpAccept data = true) :
    54 ≤ data.length ∧
    data.getD 0 0 = 66 ∧ data.getD 1 0 = 77 ∧
    h_BMP_BIT_get4 data 2 =
      54 + h_BMP_BIT_get4 data 22 * bmpRowStride (h_BMP_BIT_get4 data 18) ∧
    h_BMP_BIT_get4 data 10 = 54 ∧
    h_BMP_BIT_get4 data 14 = 40 ∧
    h_BMP_BIT_get2 data 26 = 1 ∧
    h_BMP_BIT_get2 data 28 = 24 ∧
    h_BMP_BIT_get4 data 30 = 0 ∧
    h_BMP_BIT_get4 data 34 =
      h_BMP_BIT_get4 data 22 * bmpRowStride (h_BMP_BIT_get4 data 18) ∧
    h_BMP_BIT_get4 data 46 = 0 ∧
    h_BMP_BIT_get4 data 50 = 0 ∧
    (data.length : Int) =
      54 + h_BMP_BIT_get4 data 22 * bmpRowStride (h_BMP_BIT_get4 data 18) ∧
    1 ≤ h_BMP_BIT_get4 data 18 ∧ 1 ≤ h_BMP_BIT_get4 data 22 := by
  unfold bmpAccept bmpCheck bmpCheckWH at hacc
  simp only [Bool.and_eq_true, beq_iff_eq, decide_eq_true_eq] at hacc
  refine ⟨hacc.1, ?_, ?_, ?_, ?_, ?_, ?_, ?_, ?_, ?_, ?_, ?_, ?_, ?_, ?_⟩ <;> tauto

theorem h_BMP_BIT_getD_header (data : List Nat) (hl : 54 ≤ data.length)
    (hb : bmpCheck data = true) (i : Nat) (hi : i < 54) :
    (h_BMP_BIT data).getD i 0 =
      (bmpNeutralizeHeader data (h_BMP_BIT_get4 data 22)
        (bmpRowStride (h_BMP_BIT_get4 data 18))).getD i 0 := by
  unfold h_BMP_BIT
  rw [if_neg (by omega), if_pos hb, List.append_assoc,
    getD_append_left _ _ _ (by rw [List.length_take, bmpNeutralizeHeader_length]; omega),
    getD_take _ _ _ hi]

theorem b32_zero (k : Nat) : b32 0 k = 0 := by
  simp [b32]

theorem ofI32_zero : ofI32 0 = 0 := by decide

/-- A zero `int32_t` field of a well-formed buffer has four zero bytes. -/
theorem get4_zero_bytes (data : List Nat) (hwf : ∀ b ∈ data, b < 256) (off : Nat)
    (hz : h_BMP_BIT_get4 data off = 0) (k : Nat) (hk : k ≤ 3) :
    data.getD (off + k) 0 = 0 := by
  have hlt := natLE4_lt data off (wf_getD data hwf off) (wf_getD data hwf (off + 1))
    (wf_getD data hwf (off + 2)) (wf_getD data hwf (off + 3))
  have h0 : natLE4 data off = 0 := by
    have := (i32_eq_zero (natLE4 data off) hlt).mp hz
    exact this
  unfold natLE4 at h0
  interval_cases k <;> (try simp only [Nat.add_zero]) <;> omega

end BMPAccept

/-- C8: after neutralisation of an accepted buffer the magic/file-size
bytes (0-5), pixel-offset/DIB-size bytes (10-17), planes/bpp bytes
(26-29), image-size bytes (34-37) and colors-used/important-colors bytes
(46-53) are all zero; the reserved field (6-9), width (18-21), height
(22-25), compression (30-33) and x-resolution (38-41) bytes are
unchanged; and the y-resolution field holds `orig_y - orig_x` under
32-bit wraparound. -/
theorem claim_C8_neutralized_header (data : List Nat)
    (hwf : ∀ b ∈ data, b < 256)
    (hlen : (data.length : Int) ≤ 2147483647)
    (hacc : bmpAccept data = true) :
    (∀ j, j ≤ 5 → (h_BMP_BIT data).getD j 0 = 0) ∧
    (∀ j, 10 ≤ j → j ≤ 17 → (h_BMP_BIT data).getD j 0 = 0) ∧
    (∀ j, 26 ≤ j → j ≤ 29 → (h_BMP_BIT data).getD j 0 = 0) ∧
    (∀ j, 34 ≤ j → j ≤ 37 → (h_BMP_BIT data).getD j 0 = 0) ∧
    (∀ j, 46 ≤ j → j ≤ 53 → (h_BMP_BIT data).getD j 0 = 0) ∧
    (∀ j, (6 ≤ j ∧ j ≤ 9) ∨ (18 ≤ j ∧ j ≤ 25) ∨ (30 ≤ j ∧ j ≤ 33) ∨
        (38 ≤ j ∧ j ≤ 41) →
      (h_BMP_BIT data).getD j 0 = data.getD j 0) ∧
    natLE4 (h_BMP_BIT data) 42 =
      ofI32 (h_BMP_BIT_get4 data 42 - h_BMP_BIT_get4 data 38) := by
  obtain ⟨hL, hm0, hm1, h2, h10, h14, h26, h28, h30, h34, h46, h50, hsz, hw, hh⟩ :=
    bmpAccept_spec data hacc
  have hb : bmpCheck data = true := by
    unfold bmpAccept at hacc
    simp only [Bool.and_eq_true] at hacc
    exact hacc.2
  have hdr := h_BMP_BIT_getD_header data hL hb
  refine ⟨?_, ?_, ?_, ?_, ?_, ?_, ?_⟩
  · intro j hj
    match j, hj with
    | 0, _ =>
      rw [hdr 0 (by omega), bmpNeutralizeHeader_getD_0 data _ _ hL, hm0]
    | 1, _ =>
      rw [hdr 1 (by omega), bmpNeutralizeHeader_getD_1 data _ _ hL, hm1]
    | (j + 2), hjj =>
      rw [hdr (j + 2) (by omega), show j + 2 = 2 + j by omega,
        bmpNeutralizeHeader_getD_2 data _ _ j (by omega) hL, h2,
        show 54 + h_BMP_BIT_get4 data 22 * bmpRowStride (h_BMP_BIT_get4 data 18) -
          (h_BMP_BIT_get4 data 22 * bmpRowStride (h_BMP_BIT_get4 data 18) + 54) = 0
          by ring, ofI32_zero, b32_zero]
  · intro j hj1 hj2
    rcases le_or_lt j 13 with hj3 | hj3
    · rw [hdr j (by omega), show j = 10 + (j - 10) by omega,
        bmpNeutralizeHeader_getD_10 data _ _ (j - 10) (by omega) hL, h10,
        show (54 : Int) - 54 = 0 by ring, ofI32_zero, b32_zero]
    · rw [hdr j (by omega), show j = 14 + (j - 14) by omega,
        bmpNeutralizeHeader_getD_14 data _ _ (j - 14) (by omega) hL, h14,
        show (40 : Int) - 40 = 0 by ring, ofI32_zero, b32_zero]
  · intro j hj1 hj2
    rcases le_or_lt j 27 with hj3 | hj3
    · rw [hdr j (by omega), show j = 26 + (j - 26) by omega,
        bmpNeutralizeHeader_getD_26 data _ _ (j - 26) (by omega) hL, h26,
        show (1 : Int) - 1 = 0 by ring, ofI32_zero, b32_zero]
    · rw [hdr j (by omega), show j = 28 + (j - 28) by omega,
        bmpNeutralizeHeader_getD_28 data _ _ (j - 28) (by omega) hL, h28,
        show (24 : Int) - 24 = 0 by ring, ofI32_zero, b32_zero]
  · intro j hj1 hj2
    rw [hdr j (by omega), show j = 34 + (j - 34) by omega,
      bmpNeutralizeHeader_getD_34 data _ _ (j - 34) (by omega) hL, h34,
      show h_BMP_BIT_get4 data 22 * bmpRowStride (h_BMP_BIT_get4 data 18) -
        h_BMP_BIT_get4 data 22 * bmpRowStride (h_BMP_BIT_get4 data 18) = 0 by ring,
      ofI32_zero, b32_zero]
  · intro j hj1 hj2
    rw [hdr j (by omega), bmpNeutralizeHeader_getD_untouched data _ _ j (by omega)]
    rcases le_or_lt j 49 with hj3 | hj3
    · rw [show j = 46 + (j - 46) by omega]
      exact get4_zero_bytes data hwf 46 h46 (j - 46) (by omega)
    · rw [show j = 50 + (j - 50) by omega]
      exact get4_zero_bytes data hwf 50 h50 (j - 50) (by omega)
  · intro j hj
    rw [hdr j (by omega), bmpNeutralizeHeader_getD_untouched data _ _ j (by omega)]
  · unfold natLE4
    rw [hdr 42 (by omega), hdr (42 + 1) (by omega), hdr (42 + 2) (by omega),
      hdr (42 + 3) (by omega),
      show (42 : Nat) = 42 + 0 by omega]
    rw [bmpNeutralizeHeader_getD_42 data _ _ 0 (by omega) hL,
      bmpNeutralizeHeader_getD_42 data _ _ 1 (by omega) hL,
      bmpNeutralizeHeader_getD_42 data _ _ 2 (by omega) hL,
      bmpNeutralizeHeader_getD_42 data _ _ 3 (by omega) hL]
    exact b32_recompose _ (ofI32_lt _)

set_option maxRecDepth 100000 in
/-- Witness for C8 at the valid sample buffer: its file-size byte is
zeroed. -/
theorem claim_C8_neutralized_header_witness : (h_BMP_BIT bmpSample).getD 2 0 = 0 :=
  (claim_C8_neutralized_header bmpSample (by decide) (by decide) (by decide)).1 2
    (by norm_num)

section StageCLemmas

theorem encodeRowGo_getD_zero (pix : Nat → Nat) (ro : Nat) (p0 p1 p2 : Int)
    (x0 rem : Nat) (hrem : 0 < rem) :
    (encodeRowGo pix ro p0 p1 p2 x0 rem).getD 0 (0, 0, 0) =
      (tcms (((pix (ro + x0 * 3) : Int) - p0) - ((pix (ro + x0 * 3 + 1) : Int) - p1)),
       tcms ((pix (ro + x0 * 3 + 1) : Int) - p1),
       tcms (((pix (ro + x0 * 3 + 2) : Int) - p2) -
         ((pix (ro + x0 * 3 + 1) : Int) - p1))) := by
  match rem, hrem with
  | rem + 1, _ => rfl

theorem encodeRowGo_getD_succ (pix : Nat → Nat) (ro : Nat) (p0 p1 p2 : Int)
    (x0 rem j : Nat) :
    (encodeRowGo pix ro p0 p1 p2 x0 (rem + 1)).getD (j + 1) (0, 0, 0) =
      (encodeRowGo pix ro (pix (ro + x0 * 3)) (pix (ro + x0 * 3 + 1))
        (pix (ro + x0 * 3 + 2)) (x0 + 1) rem).getD j (0, 0, 0) := rfl

theorem encodeRowGo_getD_pos (pix : Nat → Nat) (ro : Nat) :
    ∀ (rem j : Nat), j + 1 < rem → ∀ (p0 p1 p2 : Int) (x0 : Nat),
    (encodeRowGo pix ro p0 p1 p2 x0 rem).getD (j + 1) (0, 0, 0) =
      (tcms (((pix (ro + (x0 + j + 1) * 3) : Int) - (pix (ro + (x0 + j) * 3) : Int)) -
         ((pix (ro + (x0 + j + 1) * 3 + 1) : Int) - (pix (ro + (x0 + j) * 3 + 1) : Int))),
       tcms ((pix (ro + (x0 + j + 1) * 3 + 1) : Int) - (pix (ro + (x0 + j) * 3 + 1) : Int)),
       tcms (((pix (ro + (x0 + j + 1) * 3 + 2) : Int) - (pix (ro + (x0 + j) * 3 + 2) : Int)) -
         ((pix (ro + (x0 + j + 1) * 3 + 1) : Int) -
           (pix (ro + (x0 + j) * 3 + 1) : Int)))) := by
  intro rem
  induction rem with
  | zero => intro j hj; omega
  | succ rem ih =>
    intro j hj p0 p1 p2 x0
    rw [encodeRowGo_getD_succ]
    match j with
    | 0 =>
      rw [encodeRowGo_getD_zero pix ro _ _ _ (x0 + 1) rem (by omega)]
      simp only [Nat.add_zero]
    | j + 1 =>
      rw [ih j (by omega) _ _ _ (x0 + 1)]
      rw [show x0 + 1 + j = x0 + (j + 1) by omega]

theorem encodeRow_getD (pix : Nat → Nat) (stride w y x : Nat) (hx : x < w) :
    (encodeRow pix stride w y).getD x (0, 0, 0) =
      (tcms (((pix (y * stride + x * 3) : Int) -
           (if x = 0 then (if y = 0 then 0 else (pix ((y - 1) * stride) : Int))
            else (pix (y * stride + (x - 1) * 3) : Int))) -
         ((pix (y * stride + x * 3 + 1) : Int) -
           (if x = 0 then (if y = 0 then 0 else (pix ((y - 1) * stride + 1) : Int))
            else (pix (y * stride + (x - 1) * 3 + 1) : Int)))),
       tcms ((pix (y * stride + x * 3 + 1) : Int) -
         (if x = 0 then (if y = 0 then 0 else (pix ((y - 1) * stride + 1) : Int))
          else (pix (y * stride + (x - 1) * 3 + 1) : Int))),
       tcms (((pix (y * stride + x * 3 + 2) : Int) -
           (if x = 0 then (if y = 0 then 0 else (pix ((y - 1) * stride + 2) : Int))
            else (pix (y * stride + (x - 1) * 3 + 2) : Int))) -
         ((pix (y * stride + x * 3 + 1) : Int) -
           (if x = 0 then (if y = 0 then 0 else (pix ((y - 1) * stride + 1) : Int))
            else (pix (y * stride + (x - 1) * 3 + 1) : Int))))) := by
  unfold encodeRow
  match x with
  | 0 =>
    simp only [if_pos rfl]
    by_cases hy : y = 0
    · rw [if_pos hy, if_pos hy, if_pos hy, if_pos hy,
        encodeRowGo_getD_zero pix (y * stride) 0 0 0 0 w hx]
      norm_num
    · rw [if_neg hy, if_neg hy, if_neg hy, if_neg hy,
        encodeRowGo_getD_zero pix (y * stride) _ _ _ 0 w hx]
      norm_num
  | x + 1 =>
    rw [show x + 1 - 1 = x by omega]
    by_cases hy : y = 0
    · rw [if_pos hy, encodeRowGo_getD_pos pix (y * stride) w x hx 0 0 0 0]
      norm_num
    · rw [if_neg hy, encodeRowGo_getD_pos pix (y * stride) w x hx _ _ _ 0]
      norm_num

end StageCLemmas

section StageCSpec

theorem idx_div_mod (w h y x k : Nat) (hy : y < h) (hx : x < w) :
    (k * (w * h) + (y + x * h)) / (w * h) = k ∧
    (k * (w * h) + (y + x * h)) % (w * h) = y + x * h ∧
    (y + x * h) % h = y ∧ (y + x * h) / h = x := by
  have hxy : y + x * h < w * h := by
    have h2 : (x + 1) * h ≤ w * h := Nat.mul_le_mul_right h hx
    have h3 : y + x * h < (x + 1) * h := by
      rw [Nat.add_mul, Nat.one_mul]
      omega
    omega
  have hwh : 0 < w * h := by
    have hw : 0 < w := by omega
    have hh : 0 < h := by omega
    exact Nat.mul_pos hw hh
  refine ⟨?_, ?_, ?_, ?_⟩
  · rw [Nat.mul_comm k (w * h), Nat.mul_add_div hwh, Nat.div_eq_of_lt hxy, Nat.add_zero]
  · rw [Nat.mul_comm k (w * h), Nat.mul_add_mod, Nat.mod_eq_of_lt hxy]
  · rw [Nat.add_mul_mod_self_right, Nat.mod_eq_of_lt hy]
  · rw [Nat.add_mul_div_right _ _ (by omega : 0 < h), Nat.div_eq_of_lt hy, Nat.zero_add]

theorem stageCtmp_decomp (pix : Nat → Nat) (stride w h y x : Nat)
    (hy : y < h) (hx : x < w) :
    stageCtmp pix stride w h (y + x * h) =
      ((encodeRow pix stride w y).getD x (0, 0, 0)).1 ∧
    stageCtmp pix stride w h (w * h + (y + x * h)) =
      ((encodeRow pix stride w y).getD x (0, 0, 0)).2.1 ∧
    stageCtmp pix stride w h (2 * (w * h) + (y + x * h)) =
      ((encodeRow pix stride w y).getD x (0, 0, 0)).2.2 := by
  obtain ⟨d0, m0, my, mx⟩ := idx_div_mod w h y x 0 hy hx
  obtain ⟨d1, m1, -, -⟩ := idx_div_mod w h y x 1 hy hx
  obtain ⟨d2, m2, -, -⟩ := idx_div_mod w h y x 2 hy hx
  rw [Nat.zero_mul, Nat.zero_add] at d0 m0
  rw [Nat.one_mul] at d1 m1
  unfold stageCtmp
  rw [d0, m0, d1, m1, d2, m2, my, mx]
  norm_num

/-- C6: the byte the forward stage writes at scratch index
`k*(w*h) + y + x*h` is the TCMS of the channel-differenced row delta
`v_k`, where the column-0 predictor of row `y` is `(0,0,0)` for `y = 0`
and otherwise the RAW first pixel of row `y-1` (`pix ((y-1)*stride + c)`,
NOT the pixel directly above), while for `x ≥ 1` the predictor is the raw
pixel at `(y, x-1)`.  Here `pix` is the pixel region of an accepted image
(`pix t = data[54 + t]`), `stride` its row stride, `w ≥ 1` and `h ≥ 1`
its validated width and height. -/
theorem claim_C6_stageC_predictor (pix : Nat → Nat) (stride w h y x : Nat)
    (hy : y < h) (hx : x < w) :
    stageCtmp pix stride w h (y + x * h) =
      tcms ((((pix (y * stride + x * 3) : Int) -
          (if x = 0 then (if y = 0 then 0 else (pix ((y - 1) * stride) : Int))
           else (pix (y * stride + (x - 1) * 3) : Int)))) -
        (((pix (y * stride + x * 3 + 1) : Int) -
          (if x = 0 then (if y = 0 then 0 else (pix ((y - 1) * stride + 1) : Int))
           else (pix (y * stride + (x - 1) * 3 + 1) : Int))))) ∧
    stageCtmp pix stride w h (w * h + (y + x * h)) =
      tcms ((pix (y * stride + x * 3 + 1) : Int) -
        (if x = 0 then (if y = 0 then 0 else (pix ((y - 1) * stride + 1) : Int))
         else (pix (y * stride + (x - 1) * 3 + 1) : Int))) ∧
    stageCtmp pix stride w h (2 * (w * h) + (y + x * h)) =
      tcms ((((pix (y * stride + x * 3 + 2) : Int) -
          (if x = 0 then (if y = 0 then 0 else (pix ((y - 1) * stride + 2) : Int))
           else (pix (y * stride + (x - 1) * 3 + 2) : Int)))) -
        (((pix (y * stride + x * 3 + 1) : Int) -
          (if x = 0 then (if y = 0 then 0 else (pix ((y - 1) * stride + 1) : Int))
           else (pix (y * stride + (x - 1) * 3 + 1) : Int))))) := by
  obtain ⟨e0, e1, e2⟩ := stageCtmp_decomp pix stride w h y x hy hx
  rw [e0, e1, e2, encodeRow_getD pix stride w y x hx]
  exact ⟨rfl, rfl, rfl⟩

/-- Witness for C6: a 2×2 image region (`stride = 8`, bytes `pix t = t`),
pixel `(1,1)`, channel 0: the predictor is the raw pixel at `(1,0)`. -/
theorem claim_C6_stageC_predictor_witness :
    stageCtmp (fun t => t % 256) 8 2 2 (1 + 1 * 2) =
      tcms (((((1 * 8 + 1 * 3) % 256 : Nat) : Int) -
          (((1 * 8 + (1 - 1) * 3) % 256 : Nat) : Int)) -
        ((((1 * 8 + 1 * 3 + 1) % 256 : Nat) : Int) -
          (((1 * 8 + (1 - 1) * 3 + 1) % 256 : Nat) : Int))) := by
  have h := (claim_C6_stageC_predictor (fun t => t % 256) 8 2 2 1 1
    (by norm_num) (by norm_num)).1
  simpa using h

end StageCSpec

section BitStageLemmas

theorem encodeRowGo_mem (pix : Nat → Nat) (ro : Nat) :
    ∀ (rem : Nat) (p0 p1 p2 : Int) (x0 : Nat) (t : Nat × Nat × Nat),
    t ∈ encodeRowGo pix ro p0 p1 p2 x0 rem →
    t.1 < 256 ∧ t.2.1 < 256 ∧ t.2.2 < 256 := by
  intro rem
  induction rem with
  | zero => intro p0 p1 p2 x0 t ht; simp [encodeRowGo] at ht
  | succ rem ih =>
    intro p0 p1 p2 x0 t ht
    rcases List.mem_cons.mp ht with rfl | hmem
    · exact ⟨tcms_lt_256 _, tcms_lt_256 _, tcms_lt_256 _⟩
    · exact ih _ _ _ _ t hmem

theorem stageCtmp_lt (pix : Nat → Nat) (stride w h idx : Nat) :
    stageCtmp pix stride w h idx < 256 := by
  have key : ∀ (l : List (Nat × Nat × Nat)) (i : Nat),
      (∀ t ∈ l, t.1 < 256 ∧ t.2.1 < 256 ∧ t.2.2 < 256) →
      (l.getD i (0, 0, 0)).1 < 256 ∧ (l.getD i (0, 0, 0)).2.1 < 256 ∧
        (l.getD i (0, 0, 0)).2.2 < 256 := by
    intro l i hl
    rcases lt_or_ge i l.length with hi | hi
    · rw [List.getD_eq_getElem _ _ hi]
      exact hl _ (List.getElem_mem hi)
    · rw [List.getD_eq_default _ _ (by omega)]
      norm_num
  have hrow : ∀ t ∈ encodeRow pix stride w (idx % (w * h) % h),
      t.1 < 256 ∧ t.2.1 < 256 ∧ t.2.2 < 256 := by
    intro t ht
    unfold encodeRow at ht
    split at ht <;> exact encodeRowGo_mem pix _ _ _ _ _ _ t ht
  obtain ⟨k1, k2, k3⟩ := key _ (idx % (w * h) / h) hrow
  unfold stageCtmp
  split
  · exact k1
  · split
    · exact k2
    · exact k3

theorem leWord_congr (f g : Nat → Nat) : ∀ k, (∀ j, j < k → f j = g j) →
    leWord f k = leWord g k := by
  intro k
  induction k generalizing f g with
  | zero => intro _; rfl
  | succ k ih =>
    intro hfg
    show f 0 + 256 * leWord (fun i => f (i + 1)) k =
      g 0 + 256 * leWord (fun i => g (i + 1)) k
    rw [hfg 0 (by omega), ih (fun i => f (i + 1)) (fun i => g (i + 1))
      (fun j hj => hfg (j + 1) (by omega))]

theorem leWord_lt (f : Nat → Nat) : ∀ k, (∀ j, j < k → f j < 256) →
    leWord f k < 256 ^ k := by
  intro k
  induction k generalizing f with
  | zero => intro _; simp [leWord]
  | succ k ih =>
    intro hf
    show f 0 + 256 * leWord (fun i => f (i + 1)) k < 256 ^ (k + 1)
    have h1 := hf 0 (by omega)
    have h2 := ih (fun i => f (i + 1)) (fun j hj => hf (j + 1) (by omega))
    have h3 : (256 : Nat) ^ (k + 1) = 256 ^ k * 256 := by ring
    omega

theorem leWord_byte (f : Nat → Nat) : ∀ (k i : Nat), i < k →
    (∀ j, j < k → f j < 256) → (leWord f k >>> (8 * i)) % 256 = f i := by
  intro k
  induction k generalizing f with
  | zero => intro i hi; omega
  | succ k ih =>
    intro i hi hf
    show ((f 0 + 256 * leWord (fun j => f (j + 1)) k) >>> (8 * i)) % 256 = f i
    match i with
    | 0 =>
      rw [Nat.mul_zero, Nat.shiftRight_zero]
      have := hf 0 (by omega)
      omega
    | i + 1 =>
      rw [show 8 * (i + 1) = 8 + 8 * i by ring, Nat.shiftRight_add]
      have hdi : (f 0 + 256 * leWord (fun j => f (j + 1)) k) >>> 8 =
          leWord (fun j => f (j + 1)) k := by
        rw [Nat.shiftRight_eq_div_pow]
        have := hf 0 (by omega)
        norm_num
        omega
      rw [hdi, ih (fun j => f (j + 1)) i (by omega) (fun j hj => hf (j + 1) (by omega))]

theorem leWord_recompose : ∀ (k : Nat) (z : Nat), z < 256 ^ k →
    leWord (fun i => (z >>> (8 * i)) % 256) k = z := by
  intro k
  induction k with
  | zero =>
    intro z hz
    interval_cases z
    rfl
  | succ k ih =>
    intro z hz
    show (z >>> (8 * 0)) % 256 + 256 * leWord (fun i => (z >>> (8 * (i + 1))) % 256) k = z
    have he : leWord (fun i => (z >>> (8 * (i + 1))) % 256) k =
        leWord (fun i => ((z >>> 8) >>> (8 * i)) % 256) k := by
      apply leWord_congr
      intro j hj
      rw [show 8 * (j + 1) = 8 + 8 * j by ring, Nat.shiftRight_add]
    rw [he, ih (z >>> 8) (by
      rw [Nat.shiftRight_eq_div_pow]
      have h3 : (256 : Nat) ^ (k + 1) = 256 ^ k * 256 := by ring
      norm_num
      omega)]
    rw [Nat.mul_zero, Nat.shiftRight_zero, Nat.shiftRight_eq_div_pow]
    norm_num
    omega

end BitStageLemmas

section BitStageInverse

theorem pow256_8 : (256 : Nat) ^ 8 = 18446744073709551616 := by norm_num

theorem ibitTmp_eq (pixe : Nat → Nat) (csize idx : Nat) :
    ibitTmp pixe csize idx =
      if idx < csize - csize % 8 then
        (butterfly64 (leWord (fun i => pixe (idx / 8 + i * ((csize - csize % 8) / 8))) 8) >>>
          (8 * (idx % 8))) % 256
      else pixe idx := rfl

theorem bmpEncodePix_eq (pix : Nat → Nat) (stride w h q : Nat) :
    bmpEncodePix pix stride w h q =
      if q < 3 * (w * h) - 3 * (w * h) % 8 then
        (butterfly64 (leWord (fun i => stageCtmp pix stride w h
          (8 * (q % ((3 * (w * h) - 3 * (w * h) % 8) / 8)) + i)) 8) >>>
          (8 * (q / ((3 * (w * h) - 3 * (w * h) % 8) / 8)))) % 256
      else if q < 3 * (w * h) then stageCtmp pix stride w h q
      else 0 := rfl

/-- `iBIT_1` undoes `BIT_1`: the scratch buffer rebuilt from the
forward-encoded pixel region equals the forward scratch buffer. -/
theorem ibitTmp_bmpEncodePix (pix : Nat → Nat) (stride w h idx : Nat)
    (hidx : idx < 3 * (w * h)) :
    ibitTmp (bmpEncodePix pix stride w h) (3 * (w * h)) idx =
      stageCtmp pix stride w h idx := by
  have hesize : 3 * (w * h) - 3 * (w * h) % 8 = 8 * (3 * (w * h) / 8) := by omega
  rw [ibitTmp_eq]
  rcases lt_or_ge idx (3 * (w * h) - 3 * (w * h) % 8) with hlt | hge
  · rw [if_pos hlt]
    have hg : 0 < (3 * (w * h) - 3 * (w * h) % 8) / 8 := by omega
    have hgeq : (3 * (w * h) - 3 * (w * h) % 8) / 8 = 3 * (w * h) / 8 := by omega
    have hdiv8 : idx / 8 < 3 * (w * h) / 8 := by omega
    have hq : ∀ i, i < 8 →
        bmpEncodePix pix stride w h (idx / 8 + i * ((3 * (w * h) - 3 * (w * h) % 8) / 8)) =
          (butterfly64 (leWord
            (fun j => stageCtmp pix stride w h (8 * (idx / 8) + j)) 8) >>> (8 * i)) % 256 := by
      intro i hi
      rw [bmpEncodePix_eq, hgeq]
      rw [if_pos (by
        have : idx / 8 + i * (3 * (w * h) / 8) ≤
            (3 * (w * h) / 8 - 1) + 7 * (3 * (w * h) / 8) := by
          have := Nat.mul_le_mul_right (3 * (w * h) / 8) (show i ≤ 7 by omega)
          omega
        omega)]
      rw [Nat.add_mul_mod_self_right, Nat.mod_eq_of_lt hdiv8,
        Nat.add_mul_div_right _ _ (by omega : 0 < 3 * (w * h) / 8),
        Nat.div_eq_of_lt hdiv8, Nat.zero_add]
    have hword : leWord
        (fun i => bmpEncodePix pix stride w h
          (idx / 8 + i * ((3 * (w * h) - 3 * (w * h) % 8) / 8))) 8 =
        butterfly64 (leWord (fun j => stageCtmp pix stride w h (8 * (idx / 8) + j)) 8) := by
      rw [leWord_congr _ _ 8 hq]
      apply leWord_recompose
      rw [pow256_8]
      apply butterfly64_lt
      rw [← pow256_8]
      exact leWord_lt _ 8 (fun j _ => stageCtmp_lt pix stride w h _)
    rw [hword, butterfly64_involution,
      leWord_byte _ 8 (idx % 8) (by omega) (fun j _ => stageCtmp_lt pix stride w h _),
      Nat.div_add_mod]
  · rw [if_neg (by omega), bmpEncodePix_eq, if_neg (by omega), if_pos hidx]

/-- `ibitTmp` only inspects the encoded pixel region below `csize`. -/
theorem ibitTmp_congr (pixe pixe' : Nat → Nat) (csize idx : Nat)
    (hag : ∀ u, u < csize → pixe u = pixe' u) (hidx : idx < csize) :
    ibitTmp pixe csize idx = ibitTmp pixe' csize idx := by
  rw [ibitTmp_eq, ibitTmp_eq]
  rcases lt_or_ge idx (csize - csize % 8) with hlt | hge
  · rw [if_pos hlt, if_pos hlt]
    congr 3
    apply leWord_congr
    intro j hj
    apply hag
    have h8 : csize - csize % 8 = 8 * ((csize - csize % 8) / 8) := by omega
    have hdiv8 : idx / 8 < (csize - csize % 8) / 8 := by omega
    have : idx / 8 + j * ((csize - csize % 8) / 8) ≤
        ((csize - csize % 8) / 8 - 1) + 7 * ((csize - csize % 8) / 8) := by
      have := Nat.mul_le_mul_right ((csize - csize % 8) / 8) (show j ≤ 7 by omega)
      omega
    omega
  · rw [if_neg (by omega), if_neg (by omega)]
    exact hag idx hidx

end BitStageInverse

section DecodePassLemmas

theorem encodeRow_getD_00 (pix : Nat → Nat) (stride w : Nat) (hw : 0 < w) :
    (encodeRow pix stride w 0).getD 0 (0, 0, 0) =
      (tcms ((pix 0 : Int) - (pix 1 : Int)),
       tcms ((pix 1 : Int)),
       tcms ((pix 2 : Int) - (pix 1 : Int))) := by
  rw [encodeRow_getD pix stride w 0 0 hw]
  norm_num

theorem encodeRow_getD_0succ (pix : Nat → Nat) (stride w y : Nat) (hw : 0 < w) :
    (encodeRow pix stride w (y + 1)).getD 0 (0, 0, 0) =
      (tcms (((pix ((y + 1) * stride) : Int) - (pix (y * stride) : Int)) -
         ((pix ((y + 1) * stride + 1) : Int) - (pix (y * stride + 1) : Int))),
       tcms ((pix ((y + 1) * stride + 1) : Int) - (pix (y * stride + 1) : Int)),
       tcms (((pix ((y + 1) * stride + 2) : Int) - (pix (y * stride + 2) : Int)) -
         ((pix ((y + 1) * stride + 1) : Int) - (pix (y * stride + 1) : Int)))) := by
  rw [encodeRow_getD pix stride w (y + 1) 0 hw]
  norm_num

theorem encodeRow_getD_succ (pix : Nat → Nat) (stride w y x : Nat) (hx : x + 1 < w) :
    (encodeRow pix stride w y).getD (x + 1) (0, 0, 0) =
      (tcms (((pix (y * stride + (x + 1) * 3) : Int) - (pix (y * stride + x * 3) : Int)) -
         ((pix (y * stride + (x + 1) * 3 + 1) : Int) -
           (pix (y * stride + x * 3 + 1) : Int))),
       tcms ((pix (y * stride + (x + 1) * 3 + 1) : Int) -
         (pix (y * stride + x * 3 + 1) : Int)),
       tcms (((pix (y * stride + (x + 1) * 3 + 2) : Int) -
           (pix (y * stride + x * 3 + 2) : Int)) -
         ((pix (y * stride + (x + 1) * 3 + 1) : Int) -
           (pix (y * stride + x * 3 + 1) : Int)))) := by
  rw [encodeRow_getD pix stride w y (x + 1) hx]
  norm_num

theorem idecCol_congr (f g : Nat → Nat) (wh : Nat)
    (hfg : ∀ u, u < 3 * wh → f u = g u) : ∀ y, y < wh →
    idecCol f wh y = idecCol g wh y := by
  intro y
  induction y with
  | zero =>
    intro hy
    unfold idecCol
    rw [hfg 0 (by omega), hfg wh (by omega), hfg (2 * wh) (by omega)]
  | succ y ih =>
    intro hy
    simp only [idecCol]
    rw [ih (by omega), hfg (y + 1) (by omega), hfg (wh + (y + 1)) (by omega),
      hfg (2 * wh + (y + 1)) (by omega)]

theorem idecRow_congr (f g : Nat → Nat) (w h y : Nat) (p0 p1 p2 : Int)
    (hy : y < h) (hfg : ∀ u, u < 3 * (w * h) → f u = g u) :
    ∀ x, x < w → idecRow f (w * h) h y p0 p1 p2 x = idecRow g (w * h) h y p0 p1 p2 x := by
  intro x
  induction x with
  | zero => intro _; rfl
  | succ x ih =>
    intro hx
    have hmul : (x + 2) * h ≤ w * h := Nat.mul_le_mul_right h (by omega)
    have he : (x + 2) * h = (x + 1) * h + h := by ring
    have hb : y + (x + 1) * h < w * h := by omega
    simp only [idecRow]
    rw [ih (by omega), hfg (y + (x + 1) * h) (by omega),
      hfg (w * h + y + (x + 1) * h) (by omega),
      hfg (2 * (w * h) + y + (x + 1) * h) (by omega)]

/-- The serial column pass recovers the first pixel of each row modulo
256. -/
theorem idecCol_mod (pix : Nat → Nat) (stride w h : Nat) (hw : 1 ≤ w) :
    ∀ y, y < h →
    (idecCol (stageCtmp pix stride w h) (w * h) y).1 % 256 =
      ((pix (y * stride) : Int)) % 256 ∧
    (idecCol (stageCtmp pix stride w h) (w * h) y).2.1 % 256 =
      ((pix (y * stride + 1) : Int)) % 256 ∧
    (idecCol (stageCtmp pix stride w h) (w * h) y).2.2 % 256 =
      ((pix (y * stride + 2) : Int)) % 256 := by
  intro y
  induction y with
  | zero =>
    intro hy
    obtain ⟨e0, e1, e2⟩ := stageCtmp_decomp pix stride w h 0 0 hy (by omega)
    rw [encodeRow_getD_00 pix stride w (by omega)] at e0 e1 e2
    norm_num at e0 e1 e2
    simp only [idecCol]
    rw [e0, e1, e2]
    have m0 := itcms_tcms_mod ((pix 0 : Int) - (pix 1 : Int))
    have m1 := itcms_tcms_mod ((pix 1 : Int))
    have m2 := itcms_tcms_mod ((pix 2 : Int) - (pix 1 : Int))
    refine ⟨?_, ?_, ?_⟩ <;> simp only [Nat.zero_mul, Nat.zero_add] <;> omega
  | succ y ih =>
    intro hy
    obtain ⟨ih0, ih1, ih2⟩ := ih (by omega)
    obtain ⟨e0, e1, e2⟩ := stageCtmp_decomp pix stride w h (y + 1) 0 hy (by omega)
    rw [encodeRow_getD_0succ pix stride w y (by omega)] at e0 e1 e2
    norm_num at e0 e1 e2
    simp only [idecCol]
    rw [e0, e1, e2]
    have m0 := itcms_tcms_mod (((pix ((y + 1) * stride) : Int) - (pix (y * stride) : Int)) -
      ((pix ((y + 1) * stride + 1) : Int) - (pix (y * stride + 1) : Int)))
    have m1 := itcms_tcms_mod ((pix ((y + 1) * stride + 1) : Int) -
      (pix (y * stride + 1) : Int))
    have m2 := itcms_tcms_mod (((pix ((y + 1) * stride + 2) : Int) -
      (pix (y * stride + 2) : Int)) -
      ((pix ((y + 1) * stride + 1) : Int) - (pix (y * stride + 1) : Int)))
    refine ⟨?_, ?_, ?_⟩ <;> omega

/-- The per-row sweep recovers every pixel of the row modulo 256, given
first-column start values that agree with the first pixel modulo 256. -/
theorem idecRow_mod (pix : Nat → Nat) (stride w h y : Nat) (hy : y < h)
    (p0 p1 p2 : Int)
    (hp0 : p0 % 256 = ((pix (y * stride) : Int)) % 256)
    (hp1 : p1 % 256 = ((pix (y * stride + 1) : Int)) % 256)
    (hp2 : p2 % 256 = ((pix (y * stride + 2) : Int)) % 256) :
    ∀ x, x < w →
    (idecRow (stageCtmp pix stride w h) (w * h) h y p0 p1 p2 x).1 % 256 =
      ((pix (y * stride + x * 3) : Int)) % 256 ∧
    (idecRow (stageCtmp pix stride w h) (w * h) h y p0 p1 p2 x).2.1 % 256 =
      ((pix (y * stride + x * 3 + 1) : Int)) % 256 ∧
    (idecRow (stageCtmp pix stride w h) (w * h) h y p0 p1 p2 x).2.2 % 256 =
      ((pix (y * stride + x * 3 + 2) : Int)) % 256 := by
  intro x
  induction x with
  | zero =>
    intro _
    refine ⟨?_, ?_, ?_⟩ <;> simp only [idecRow, Nat.zero_mul, Nat.add_zero] <;>
      assumption
  | succ x ih =>
    intro hx
    obtain ⟨ih0, ih1, ih2⟩ := ih (by omega)
    obtain ⟨e0, e1, e2⟩ := stageCtmp_decomp pix stride w h y (x + 1) hy hx
    rw [encodeRow_getD_succ pix stride w y x hx] at e0 e1 e2
    norm_num at e0 e1 e2
    simp only [idecRow]
    have a1 : w * h + y + (x + 1) * h = w * h + (y + (x + 1) * h) := by omega
    have a2 : 2 * (w * h) + y + (x + 1) * h = 2 * (w * h) + (y + (x + 1) * h) := by omega
    rw [a1, a2, e0, e1, e2]
    have m0 := itcms_tcms_mod
      (((pix (y * stride + (x + 1) * 3) : Int) - (pix (y * stride + x * 3) : Int)) -
        ((pix (y * stride + (x + 1) * 3 + 1) : Int) -
          (pix (y * stride + x * 3 + 1) : Int)))
    have m1 := itcms_tcms_mod ((pix (y * stride + (x + 1) * 3 + 1) : Int) -
      (pix (y * stride + x * 3 + 1) : Int))
    have m2 := itcms_tcms_mod
      (((pix (y * stride + (x + 1) * 3 + 2) : Int) -
          (pix (y * stride + x * 3 + 2) : Int)) -
        ((pix (y * stride + (x + 1) * 3 + 1) : Int) -
          (pix (y * stride + x * 3 + 1) : Int)))
    refine ⟨?_, ?_, ?_⟩ <;> omega

end DecodePassLemmas

section RoundTripHelpers

theorem byteOf_mod (v : Int) : ((byteOf v : Nat) : Int) % 256 = v % 256 := by
  unfold byteOf
  omega

theorem byteOf_eq (v : Int) (n : Nat) (hn : n < 256)
    (hv : v % 256 = (n : Int) % 256) : byteOf v = n := by
  unfold byteOf
  omega

theorem getD_append_offset (l r : List Nat) (u : Nat) :
    (l ++ r).getD (l.length + u) 0 = r.getD u 0 := by
  simp [List.getD, List.getElem?_append_right (by omega : l.length ≤ l.length + u)]

theorem getD_range_map (n : Nat) (f : Nat → Nat) (i : Nat) (h : i < n) :
    ((List.range n).map f).getD i 0 = f i := by
  simp [List.getD, List.getElem?_map, List.getElem?_range h]

theorem list_eq_of_getD (l l' : List Nat) (hlen : l.length = l'.length)
    (h : ∀ i, i < l.length → l.getD i 0 = l'.getD i 0) : l = l' := by
  apply List.ext_getElem hlen
  intro i h1 h2
  have hh := h i h1
  rw [List.getD_eq_getElem _ _ h1, List.getD_eq_getElem _ _ h2] at hh
  exact hh

theorem bmpRowStride_facts (w : Int) (hw : 1 ≤ w) :
    w * 3 ≤ bmpRowStride w ∧ bmpRowStride w ≤ w * 3 + 3 ∧ 1 ≤ bmpRowStride w := by
  unfold bmpRowStride
  rw [Int.fdiv_eq_ediv _ (by norm_num)]
  omega

theorem natLE4_eq4 (l l' : List Nat) (off off' : Nat)
    (e0 : l.getD off 0 = l'.getD off' 0)
    (e1 : l.getD (off + 1) 0 = l'.getD (off' + 1) 0)
    (e2 : l.getD (off + 2) 0 = l'.getD (off' + 2) 0)
    (e3 : l.getD (off + 3) 0 = l'.getD (off' + 3) 0) :
    natLE4 l off = natLE4 l' off' := by
  unfold natLE4
  rw [e0, e1, e2, e3]

theorem natLE2_eq2 (l l' : List Nat) (off off' : Nat)
    (e0 : l.getD off 0 = l'.getD off' 0)
    (e1 : l.getD (off + 1) 0 = l'.getD (off' + 1) 0) :
    natLE2 l off = natLE2 l' off' := by
  unfold natLE2
  rw [e0, e1]

theorem h_BMP_BIT_eq_of_accept (data : List Nat) (hl : 54 ≤ data.length)
    (hb : bmpCheck data = true) :
    h_BMP_BIT data =
      (bmpNeutralizeHeader data (h_BMP_BIT_get4 data 22)
          (bmpRowStride (h_BMP_BIT_get4 data 18))).take 54 ++
        (List.range ((bmpRowStride (h_BMP_BIT_get4 data 18)).toNat *
            (h_BMP_BIT_get4 data 22).toNat)).map
          (bmpEncodePix (fun t => data.getD (54 + t) 0)
            (bmpRowStride (h_BMP_BIT_get4 data 18)).toNat
            (h_BMP_BIT_get4 data 18).toNat (h_BMP_BIT_get4 data 22).toNat) ++
        data.drop (54 + (bmpRowStride (h_BMP_BIT_get4 data 18)).toNat *
            (h_BMP_BIT_get4 data 22).toNat) := by
  unfold h_BMP_BIT
  rw [if_neg (by omega), if_pos hb]

theorem h_iBMP_BIT_eq_of_accept (data : List Nat) (hl : 54 ≤ data.length)
    (hb : ibmpCheck data = true) :
    h_iBMP_BIT data =
      (bmpRestoreHeader data (h_BMP_BIT_get4 data 22)
          (bmpRowStride (h_BMP_BIT_get4 data 18))).take 54 ++
        (List.range ((bmpRowStride (h_BMP_BIT_get4 data 18)).toNat *
            (h_BMP_BIT_get4 data 22).toNat)).map
          (bmpDecodePix (fun u => data.getD (54 + u) 0)
            (bmpRowStride (h_BMP_BIT_get4 data 18)).toNat
            (h_BMP_BIT_get4 data 18).toNat (h_BMP_BIT_get4 data 22).toNat) ++
        data.drop (54 + (bmpRowStride (h_BMP_BIT_get4 data 18)).toNat *
            (h_BMP_BIT_get4 data 22).toNat) := by
  unfold h_iBMP_BIT
  rw [if_neg (by omega), if_pos hb]

end RoundTripHelpers

theorem i32_zero : i32 0 = 0 := by decide

theorem natLE4_of_bytes (l : List Nat) (off P : Nat) (hP : P < 4294967296)
    (e : ∀ k, k ≤ 3 → l.getD (off + k) 0 = b32 P k) : natLE4 l off = P := by
  have e0 := e 0 (by omega)
  have e1 := e 1 (by omega)
  have e2 := e 2 (by omega)
  have e3 := e 3 (by omega)
  rw [Nat.add_zero] at e0
  unfold natLE4
  rw [e0, e1, e2, e3]
  exact b32_recompose P hP

theorem getD_append_offset54 (l r : List Nat) (hl : l.length = 54) (u : Nat) :
    (l ++ r).getD (54 + u) 0 = r.getD u 0 := by
  rw [← hl]
  exact getD_append_offset l r u

theorem h_BMP_BIT_length_accept (data : List Nat) (hl : 54 ≤ data.length)
    (hb : bmpCheck data = true)
    (hsz : data.length = 54 + (bmpRowStride (h_BMP_BIT_get4 data 18)).toNat *
      (h_BMP_BIT_get4 data 22).toNat) :
    (h_BMP_BIT data).length = data.length := by
  rw [h_BMP_BIT_eq_of_accept data hl hb]
  simp only [List.length_append, List.length_take, List.length_map, List.length_range,
    bmpNeutralizeHeader_length, List.length_drop]
  omega

/-- Under acceptance, the forward output's pixel-region byte at offset
`54 + u` is the encoded byte `bmpEncodePix … u`. -/
theorem fwd_getD_pix (data : List Nat) (hl : 54 ≤ data.length)
    (hb : bmpCheck data = true) (u : Nat)
    (hu : u < (bmpRowStride (h_BMP_BIT_get4 data 18)).toNat *
      (h_BMP_BIT_get4 data 22).toNat) :
    (h_BMP_BIT data).getD (54 + u) 0 =
      bmpEncodePix (fun t => data.getD (54 + t) 0)
        (bmpRowStride (h_BMP_BIT_get4 data 18)).toNat
        (h_BMP_BIT_get4 data 18).toNat (h_BMP_BIT_get4 data 22).toNat u := by
  rw [h_BMP_BIT_eq_of_accept data hl hb, List.append_assoc,
    getD_append_offset54 _ _ (by rw [List.length_take, bmpNeutralizeHeader_length]; omega) u,
    getD_append_left _ _ _ (by rw [List.length_map, List.length_range]; exact hu),
    getD_range_map _ _ _ hu]

/-- When the rebuilt scratch buffer agrees with the forward scratch
buffer, the decoded pixel-region byte at row `y`, in-row offset `r`, is
the original pixel byte (or zero on the padding bytes). -/
theorem bmpDecodePix_pix (pix pixe : Nat → Nat) (stride w h : Nat)
    (hw : 1 ≤ w) (hpix : ∀ u, pix u < 256)
    (hag : ∀ u, u < 3 * (w * h) → pixe u = bmpEncodePix pix stride w h u)
    (y r : Nat) (hy : y < h) (hr : r < stride) :
    bmpDecodePix pixe stride w h (y * stride + r) =
      if r < 3 * w then pix (y * stride + r) else 0 := by
  have hs : 0 < stride := by omega
  have hdiv : (y * stride + r) / stride = y := by
    rw [Nat.add_comm, Nat.mul_comm, Nat.add_mul_div_left _ _ hs, Nat.div_eq_of_lt hr,
      Nat.zero_add]
  have hmod : (y * stride + r) % stride = r := by
    rw [Nat.add_comm, Nat.mul_comm, Nat.add_mul_mod_self_left, Nat.mod_eq_of_lt hr]
  unfold bmpDecodePix
  rw [hdiv, hmod]
  by_cases hcase : r < 3 * w
  · rw [if_pos hcase, if_pos hcase]
    have hag2 : ∀ u, u < 3 * (w * h) →
        ibitTmp pixe (3 * (w * h)) u = stageCtmp pix stride w h u := by
      intro u hu
      rw [ibitTmp_congr pixe (bmpEncodePix pix stride w h) (3 * (w * h)) u hag hu,
        ibitTmp_bmpEncodePix pix stride w h u hu]
    have hywh : y < w * h := by
      have : 1 * h ≤ w * h := Nat.mul_le_mul_right h hw
      omega
    rw [idecCol_congr (ibitTmp pixe (3 * (w * h))) (stageCtmp pix stride w h)
      (w * h) hag2 y hywh]
    have hx : r / 3 < w := by omega
    rw [idecRow_congr (ibitTmp pixe (3 * (w * h))) (stageCtmp pix stride w h) w h y
      _ _ _ hy hag2 (r / 3) hx]
    obtain ⟨c0, c1, c2⟩ := idecCol_mod pix stride w h hw y hy
    obtain ⟨m0, m1, m2⟩ := idecRow_mod pix stride w h y hy _ _ _
      ((byteOf_mod _).trans c0) ((byteOf_mod _).trans c1) ((byteOf_mod _).trans c2)
      (r / 3) hx
    have h3 : r % 3 = 0 ∨ r % 3 = 1 ∨ r % 3 = 2 := by omega
    rcases h3 with h3 | h3 | h3
    · rw [if_pos h3]
      rw [show r / 3 * 3 = r from by omega] at m0
      exact byteOf_eq _ _ (hpix _) m0
    · rw [if_neg (by omega), if_pos h3]
      rw [Nat.add_assoc] at m1
      rw [show r / 3 * 3 + 1 = r from by omega] at m1
      exact byteOf_eq _ _ (hpix _) m1
    · rw [if_neg (by omega), if_neg (by omega)]
      rw [Nat.add_assoc] at m2
      rw [show r / 3 * 3 + 2 = r from by omega] at m2
      exact byteOf_eq _ _ (hpix _) m2
  · rw [if_neg hcase, if_neg hcase]

/-- The four forward-output bytes of the file-size field encode the
neutralised pattern. -/
theorem fwd_natLE4_2 (data : List Nat) (hl : 54 ≤ data.length)
    (hb : bmpCheck data = true) :
    natLE4 (h_BMP_BIT data) 2 =
      ofI32 (h_BMP_BIT_get4 data 2 -
        (h_BMP_BIT_get4 data 22 * bmpRowStride (h_BMP_BIT_get4 data 18) + 54)) := by
  apply natLE4_of_bytes _ _ _ (ofI32_lt _)
  intro k hk
  rw [h_BMP_BIT_getD_header data hl hb (2 + k) (by omega),
    bmpNeutralizeHeader_getD_2 data _ _ k hk hl]

theorem fwd_natLE4_10 (data : List Nat) (hl : 54 ≤ data.length)
    (hb : bmpCheck data = true) :
    natLE4 (h_BMP_BIT data) 10 = ofI32 (h_BMP_BIT_get4 data 10 - 54) := by
  apply natLE4_of_bytes _ _ _ (ofI32_lt _)
  intro k hk
  rw [h_BMP_BIT_getD_header data hl hb (10 + k) (by omega),
    bmpNeutralizeHeader_getD_10 data _ _ k hk hl]

theorem fwd_natLE4_14 (data : List Nat) (hl : 54 ≤ data.length)
    (hb : bmpCheck data = true) :
    natLE4 (h_BMP_BIT data) 14 = ofI32 (h_BMP_BIT_get4 data 14 - 40) := by
  apply natLE4_of_bytes _ _ _ (ofI32_lt _)
  intro k hk
  rw [h_BMP_BIT_getD_header data hl hb (14 + k) (by omega),
    bmpNeutralizeHeader_getD_14 data _ _ k hk hl]

theorem fwd_natLE4_34 (data : List Nat) (hl : 54 ≤ data.length)
    (hb : bmpCheck data = true) :
    natLE4 (h_BMP_BIT data) 34 =
      ofI32 (h_BMP_BIT_get4 data 34 -
        h_BMP_BIT_get4 data 22 * bmpRowStride (h_BMP_BIT_get4 data 18)) := by
  apply natLE4_of_bytes _ _ _ (ofI32_lt _)
  intro k hk
  rw [h_BMP_BIT_getD_header data hl hb (34 + k) (by omega),
    bmpNeutralizeHeader_getD_34 data _ _ k hk hl]

theorem fwd_natLE4_42 (data : List Nat) (hl : 54 ≤ data.length)
    (hb : bmpCheck data = true) :
    natLE4 (h_BMP_BIT data) 42 =
      ofI32 (h_BMP_BIT_get4 data 42 - h_BMP_BIT_get4 data 38) := by
  apply natLE4_of_bytes _ _ _ (ofI32_lt _)
  intro k hk
  rw [h_BMP_BIT_getD_header data hl hb (42 + k) (by omega),
    bmpNeutralizeHeader_getD_42 data _ _ k hk hl]

/-- Fields whose bytes the neutralisation does not touch read the same
on the forward output as on the input. -/
theorem fwd_get4_untouched (data : List Nat) (hl : 54 ≤ data.length)
    (hb : bmpCheck data = true) (off : Nat)
    (hoff : (6 ≤ off ∧ off + 3 ≤ 9) ∨ (18 ≤ off ∧ off + 3 ≤ 25) ∨
      (30 ≤ off ∧ off + 3 ≤ 33) ∨ (38 ≤ off ∧ off + 3 ≤ 41) ∨
      (46 ≤ off ∧ off + 3 ≤ 53)) :
    h_BMP_BIT_get4 (h_BMP_BIT data) off = h_BMP_BIT_get4 data off := by
  unfold h_BMP_BIT_get4
  congr 1
  apply natLE4_eq4
  all_goals
    rw [h_BMP_BIT_getD_header data hl hb _ (by omega),
      bmpNeutralizeHeader_getD_untouched data _ _ _ (by omega)]

theorem fwd_get4_2_zero (data : List Nat) (hl : 54 ≤ data.length)
    (hb : bmpCheck data = true)
    (h2 : h_BMP_BIT_get4 data 2 =
      54 + h_BMP_BIT_get4 data 22 * bmpRowStride (h_BMP_BIT_get4 data 18)) :
    h_BMP_BIT_get4 (h_BMP_BIT data) 2 = 0 := by
  unfold h_BMP_BIT_get4
  rw [fwd_natLE4_2 data hl hb, h2,
    show 54 + h_BMP_BIT_get4 data 22 * bmpRowStride (h_BMP_BIT_get4 data 18) -
      (h_BMP_BIT_get4 data 22 * bmpRowStride (h_BMP_BIT_get4 data 18) + 54) = 0
      from by ring, ofI32_zero]
  exact i32_zero

theorem fwd_get4_10_zero (data : List Nat) (hl : 54 ≤ data.length)
    (hb : bmpCheck data = true) (h10 : h_BMP_BIT_get4 data 10 = 54) :
    h_BMP_BIT_get4 (h_BMP_BIT data) 10 = 0 := by
  unfold h_BMP_BIT_get4
  rw [fwd_natLE4_10 data hl hb, h10, show (54 : Int) - 54 = 0 from by ring, ofI32_zero]
  exact i32_zero

theorem fwd_get4_14_zero (data : List Nat) (hl : 54 ≤ data.length)
    (hb : bmpCheck data = true) (h14 : h_BMP_BIT_get4 data 14 = 40) :
    h_BMP_BIT_get4 (h_BMP_BIT data) 14 = 0 := by
  unfold h_BMP_BIT_get4
  rw [fwd_natLE4_14 data hl hb, h14, show (40 : Int) - 40 = 0 from by ring, ofI32_zero]
  exact i32_zero

theorem fwd_get4_34_zero (data : List Nat) (hl : 54 ≤ data.length)
    (hb : bmpCheck data = true)
    (h34 : h_BMP_BIT_get4 data 34 =
      h_BMP_BIT_get4 data 22 * bmpRowStride (h_BMP_BIT_get4 data 18)) :
    h_BMP_BIT_get4 (h_BMP_BIT data) 34 = 0 := by
  unfold h_BMP_BIT_get4
  rw [fwd_natLE4_34 data hl hb, h34,
    show h_BMP_BIT_get4 data 22 * bmpRowStride (h_BMP_BIT_get4 data 18) -
      h_BMP_BIT_get4 data 22 * bmpRowStride (h_BMP_BIT_get4 data 18) = 0
      from by ring, ofI32_zero]
  exact i32_zero

theorem fwd_get2_26_zero (data : List Nat) (hl : 54 ≤ data.length)
    (hb : bmpCheck data = true) (h26 : h_BMP_BIT_get2 data 26 = 1) :
    h_BMP_BIT_get2 (h_BMP_BIT data) 26 = 0 := by
  have e0 := bmpNeutralizeHeader_getD_26 data (h_BMP_BIT_get4 data 22)
    (bmpRowStride (h_BMP_BIT_get4 data 18)) 0 (by omega) hl
  have e1 := bmpNeutralizeHeader_getD_26 data (h_BMP_BIT_get4 data 22)
    (bmpRowStride (h_BMP_BIT_get4 data 18)) 1 (by omega) hl
  rw [Nat.add_zero] at e0
  unfold h_BMP_BIT_get2 natLE2
  rw [h_BMP_BIT_getD_header data hl hb 26 (by omega),
    h_BMP_BIT_getD_header data hl hb (26 + 1) (by omega), e0, e1, h26,
    show (1 : Int) - 1 = 0 from by ring, ofI32_zero, b32_zero, b32_zero]
  norm_num

theorem fwd_get2_28_zero (data : List Nat) (hl : 54 ≤ data.length)
    (hb : bmpCheck data = true) (h28 : h_BMP_BIT_get2 data 28 = 24) :
    h_BMP_BIT_get2 (h_BMP_BIT data) 28 = 0 := by
  have e0 := bmpNeutralizeHeader_getD_28 data (h_BMP_BIT_get4 data 22)
    (bmpRowStride (h_BMP_BIT_get4 data 18)) 0 (by omega) hl
  have e1 := bmpNeutralizeHeader_getD_28 data (h_BMP_BIT_get4 data 22)
    (bmpRowStride (h_BMP_BIT_get4 data 18)) 1 (by omega) hl
  rw [Nat.add_zero] at e0
  unfold h_BMP_BIT_get2 natLE2
  rw [h_BMP_BIT_getD_header data hl hb 28 (by omega),
    h_BMP_BIT_getD_header data hl hb (28 + 1) (by omega), e0, e1, h28,
    show (24 : Int) - 24 = 0 from by ring, ofI32_zero, b32_zero, b32_zero]
  norm_num

theorem fwd_getD_0_zero (data : List Nat) (hl : 54 ≤ data.length)
    (hb : bmpCheck data = true) (hm0 : data.getD 0 0 = 66) :
    (h_BMP_BIT data).getD 0 0 = 0 := by
  rw [h_BMP_BIT_getD_header data hl hb 0 (by omega),
    bmpNeutralizeHeader_getD_0 data _ _ hl, hm0]

theorem fwd_getD_1_zero (data : List Nat) (hl : 54 ≤ data.length)
    (hb : bmpCheck data = true) (hm1 : data.getD 1 0 = 77) :
    (h_BMP_BIT data).getD 1 0 = 0 := by
  rw [h_BMP_BIT_getD_header data hl hb 1 (by omega),
    bmpNeutralizeHeader_getD_1 data _ _ hl, hm1]

/-- An accepted buffer's length is exactly `54 + row_stride * height`. -/
theorem accept_length_eq (data : List Nat) (hacc : bmpAccept data = true) :
    data.length = 54 + (bmpRowStride (h_BMP_BIT_get4 data 18)).toNat *
      (h_BMP_BIT_get4 data 22).toNat := by
  obtain ⟨hL, _, _, _, _, _, _, _, _, _, _, _, hsz, hw, hh⟩ := bmpAccept_spec data hacc
  obtain ⟨hS1, hS2, hS3⟩ := bmpRowStride_facts (h_BMP_BIT_get4 data 18) hw
  have hcS : (((bmpRowStride (h_BMP_BIT_get4 data 18)).toNat : Nat) : Int) =
      bmpRowStride (h_BMP_BIT_get4 data 18) := Int.toNat_of_nonneg (by omega)
  have hcH : (((h_BMP_BIT_get4 data 22).toNat : Nat) : Int) = h_BMP_BIT_get4 data 22 :=
    Int.toNat_of_nonneg (by omega)
  have hc : ((54 + (bmpRowStride (h_BMP_BIT_get4 data 18)).toNat *
      (h_BMP_BIT_get4 data 22).toNat : Nat) : Int) = (data.length : Int) := by
    rw [Nat.cast_add, Nat.cast_mul, hcS, hcH, hsz]
    push_cast
    ring
  exact_mod_cast hc.symm

/-- The forward output of an accepted buffer passes the inverse stage's
validation. -/
theorem ibmpCheck_fwd (data : List Nat) (hacc : bmpAccept data = true) :
    ibmpCheck (h_BMP_BIT data) = true := by
  obtain ⟨hL, hm0, hm1, h2, h10, h14, h26, h28, h30, h34, h46, h50, hsz, hw, hh⟩ :=
    bmpAccept_spec data hacc
  have hb : bmpCheck data = true := by
    unfold bmpAccept at hacc
    simp only [Bool.and_eq_true] at hacc
    exact hacc.2
  have e18 := fwd_get4_untouched data hL hb 18 (by omega)
  have e22 := fwd_get4_untouched data hL hb 22 (by omega)
  have e30 := fwd_get4_untouched data hL hb 30 (by omega)
  have e46 := fwd_get4_untouched data hL hb 46 (by omega)
  have e50 := fwd_get4_untouched data hL hb 50 (by omega)
  unfold ibmpCheck ibmpCheckWH
  rw [fwd_getD_0_zero data hL hb hm0, fwd_getD_1_zero data hL hb hm1,
    fwd_get4_2_zero data hL hb h2, fwd_get4_10_zero data hL hb h10,
    fwd_get4_14_zero data hL hb h14, fwd_get2_26_zero data hL hb h26,
    fwd_get2_28_zero data hL hb h28, e30, h30, fwd_get4_34_zero data hL hb h34,
    e46, h46, e50, h50, e18, e22]
  simp [hw, hh]

/-- Applying the inverse stage's header restoration to the forward
output recovers every original header byte. -/
theorem restore_fwd_header (data : List Nat) (hwf : ∀ b ∈ data, b < 256)
    (hacc : bmpAccept data = true) (i : Nat) (hi : i < 54) :
    (bmpRestoreHeader (h_BMP_BIT data) (h_BMP_BIT_get4 data 22)
        (bmpRowStride (h_BMP_BIT_get4 data 18))).getD i 0 = data.getD i 0 := by
  obtain ⟨hL, hm0, hm1, h2, h10, h14, h26, h28, h30, h34, h46, h50, hsz, hw, hh⟩ :=
    bmpAccept_spec data hacc
  have hb : bmpCheck data = true := by
    unfold bmpAccept at hacc
    simp only [Bool.and_eq_true] at hacc
    exact hacc.2
  have hlen54 := accept_length_eq data hacc
  have hfl : 54 ≤ (h_BMP_BIT data).length := by
    rw [h_BMP_BIT_length_accept data hL hb hlen54]
    exact hL
  have hdr := h_BMP_BIT_getD_header data hL hb
  have hwfb := wf_getD data hwf
  have hunt : ∀ j, ((6 ≤ j ∧ j ≤ 9) ∨ (18 ≤ j ∧ j ≤ 25) ∨ (30 ≤ j ∧ j ≤ 33) ∨
      (38 ≤ j ∧ j ≤ 41) ∨ 46 ≤ j) → j < 54 →
      (bmpRestoreHeader (h_BMP_BIT data) (h_BMP_BIT_get4 data 22)
        (bmpRowStride (h_BMP_BIT_get4 data 18))).getD j 0 = data.getD j 0 := by
    intro j hj hj54
    rw [bmpRestoreHeader_getD_untouched _ _ _ j hj, hdr j hj54,
      bmpNeutralizeHeader_getD_untouched data _ _ j hj]
  rcases lt_or_ge i 2 with hr | hr
  · interval_cases i
    · rw [bmpRestoreHeader_getD_0 _ _ _ hfl, fwd_getD_0_zero data hL hb hm0, hm0]
    · rw [bmpRestoreHeader_getD_1 _ _ _ hfl, fwd_getD_1_zero data hL hb hm1, hm1]
  rcases lt_or_ge i 6 with hr6 | hr6
  · rw [show i = 2 + (i - 2) from by omega,
      bmpRestoreHeader_getD_2 _ _ _ (i - 2) (by omega) hfl,
      fwd_get4_2_zero data hL hb h2,
      show (0 : Int) + (h_BMP_BIT_get4 data 22 * bmpRowStride (h_BMP_BIT_get4 data 18) +
        54) = 54 + h_BMP_BIT_get4 data 22 * bmpRowStride (h_BMP_BIT_get4 data 18)
        from by ring]
    have hq : natLE4 data 2 =
        ofI32 (54 + h_BMP_BIT_get4 data 22 * bmpRowStride (h_BMP_BIT_get4 data 18)) := by
      rw [← h2]
      unfold h_BMP_BIT_get4
      exact (ofI32_i32 _ (natLE4_lt data 2 (hwfb _) (hwfb _) (hwfb _) (hwfb _))).symm
    rw [← hq, natLE4_digit data 2 (i - 2) (by omega) (hwfb _) (hwfb _) (hwfb _) (hwfb _)]
  rcases lt_or_ge i 10 with hr10 | hr10
  · exact hunt i (by omega) hi
  rcases lt_or_ge i 14 with hr14 | hr14
  · rw [show i = 10 + (i - 10) from by omega,
      bmpRestoreHeader_getD_10 _ _ _ (i - 10) (by omega) hfl,
      fwd_get4_10_zero data hL hb h10, show (0 : Int) + 54 = 54 from by ring]
    have hq : natLE4 data 10 = ofI32 54 := by
      rw [← h10]
      unfold h_BMP_BIT_get4
      exact (ofI32_i32 _ (natLE4_lt data 10 (hwfb _) (hwfb _) (hwfb _) (hwfb _))).symm
    rw [← hq, natLE4_digit data 10 (i - 10) (by omega) (hwfb _) (hwfb _) (hwfb _) (hwfb _)]
  rcases lt_or_ge i 18 with hr18 | hr18
  · rw [show i = 14 + (i - 14) from by omega,
      bmpRestoreHeader_getD_14 _ _ _ (i - 14) (by omega) hfl,
      fwd_get4_14_zero data hL hb h14, show (0 : Int) + 40 = 40 from by ring]
    have hq : natLE4 data 14 = ofI32 40 := by
      rw [← h14]
      unfold h_BMP_BIT_get4
      exact (ofI32_i32 _ (natLE4_lt data 14 (hwfb _) (hwfb _) (hwfb _) (hwfb _))).symm
    rw [← hq, natLE4_digit data 14 (i - 14) (by omega) (hwfb _) (hwfb _) (hwfb _) (hwfb _)]
  rcases lt_or_ge i 26 with hr26 | hr26
  · exact hunt i (by omega) hi
  rcases lt_or_ge i 28 with hr28 | hr28
  · rw [show i = 26 + (i - 26) from by omega,
      bmpRestoreHeader_getD_26 _ _ _ (i - 26) (by omega) hfl,
      fwd_get2_26_zero data hL hb h26, show (0 : Int) + 1 = 1 from by ring,
      show ofI32 (1 : Int) = 1 from by decide]
    have hq2 : natLE2 data 26 = 1 := by
      have hx := h26
      unfold h_BMP_BIT_get2 at hx
      omega
    rw [← hq2, natLE2_digit data 26 (i - 26) (by omega) (hwfb _) (hwfb _)]
  rcases lt_or_ge i 30 with hr30 | hr30
  · rw [show i = 28 + (i - 28) from by omega,
      bmpRestoreHeader_getD_28 _ _ _ (i - 28) (by omega) hfl,
      fwd_get2_28_zero data hL hb h28, show (0 : Int) + 24 = 24 from by ring,
      show ofI32 (24 : Int) = 24 from by decide]
    have hq2 : natLE2 data 28 = 24 := by
      have hx := h28
      unfold h_BMP_BIT_get2 at hx
      omega
    rw [← hq2, natLE2_digit data 28 (i - 28) (by omega) (hwfb _) (hwfb _)]
  rcases lt_or_ge i 34 with hr34 | hr34
  · exact hunt i (by omega) hi
  rcases lt_or_ge i 38 with hr38 | hr38
  · rw [show i = 34 + (i - 34) from by omega,
      bmpRestoreHeader_getD_34 _ _ _ (i - 34) (by omega) hfl,
      fwd_get4_34_zero data hL hb h34,
      show (0 : Int) + h_BMP_BIT_get4 data 22 * bmpRowStride (h_BMP_BIT_get4 data 18) =
        h_BMP_BIT_get4 data 22 * bmpRowStride (h_BMP_BIT_get4 data 18) from by ring]
    have hq : natLE4 data 34 =
        ofI32 (h_BMP_BIT_get4 data 22 * bmpRowStride (h_BMP_BIT_get4 data 18)) := by
      rw [← h34]
      unfold h_BMP_BIT_get4
      exact (ofI32_i32 _ (natLE4_lt data 34 (hwfb _) (hwfb _) (hwfb _) (hwfb _))).symm
    rw [← hq, natLE4_digit data 34 (i - 34) (by omega) (hwfb _) (hwfb _) (hwfb _) (hwfb _)]
  rcases lt_or_ge i 42 with hr42 | hr42
  · exact hunt i (by omega) hi
  rcases lt_or_ge i 46 with hr46 | hr46
  · have e38 := fwd_get4_untouched data hL hb 38 (by omega)
    rw [show i = 42 + (i - 42) from by omega,
      bmpRestoreHeader_getD_42 _ _ _ (i - 42) (by omega) hfl, e38]
    have h42 : h_BMP_BIT_get4 (h_BMP_BIT data) 42 =
        i32 (ofI32 (h_BMP_BIT_get4 data 42 - h_BMP_BIT_get4 data 38)) := by
      unfold h_BMP_BIT_get4
      rw [fwd_natLE4_42 data hL hb]
      unfold h_BMP_BIT_get4
      rfl
    rw [h42]
    unfold h_BMP_BIT_get4
    rw [set4_roundtrip (natLE4 data 42) (i32 (natLE4 data 38))
      (natLE4_lt data 42 (hwfb _) (hwfb _) (hwfb _) (hwfb _)),
      natLE4_digit data 42 (i - 42) (by omega) (hwfb _) (hwfb _) (hwfb _) (hwfb _)]
  exact hunt i (by omega) hi

/-- C1 (amended): for a well-formed accepted buffer whose per-row padding
bytes are all zero, `h_iBMP_BIT` exactly undoes `h_BMP_BIT`:
`h_iBMP_BIT (h_BMP_BIT data) = data`, byte for byte, with the size
unchanged.  The padding hypothesis is necessary: the forward stage
zeroes the `width*h - newsize*3` padding bytes and the inverse stage
rewrites them as zeros, so a buffer with a nonzero padding byte does not
round-trip (see the counterexample).  The `2^31 - 1` length bound keeps
the C `int32_t` header arithmetic exact. -/
theorem claim_C1 (data : List Nat)
    (hwf : ∀ b ∈ data, b < 256)
    (hlen : (data.length : Int) ≤ 2147483647)
    (hacc : bmpAccept data = true)
    (hpad : ∀ y, y < (h_BMP_BIT_get4 data 22).toNat →
      ∀ r, 3 * (h_BMP_BIT_get4 data 18).toNat ≤ r →
        r < (bmpRowStride (h_BMP_BIT_get4 data 18)).toNat →
        data.getD (54 + (y * (bmpRowStride (h_BMP_BIT_get4 data 18)).toNat + r)) 0 = 0) :
    h_iBMP_BIT (h_BMP_BIT data) = data := by
  obtain ⟨hL, hm0, hm1, h2, h10, h14, h26, h28, h30, h34, h46, h50, hsz, hw, hh⟩ :=
    bmpAccept_spec data hacc
  have hb : bmpCheck data = true := by
    unfold bmpAccept at hacc
    simp only [Bool.and_eq_true] at hacc
    exact hacc.2
  obtain ⟨hS1, hS2, hS3⟩ := bmpRowStride_facts (h_BMP_BIT_get4 data 18) hw
  have hlen54 := accept_length_eq data hacc
  have hfwdlen := h_BMP_BIT_length_accept data hL hb hlen54
  have hib := ibmpCheck_fwd data hacc
  have e18 := fwd_get4_untouched data hL hb 18 (by omega)
  have e22 := fwd_get4_untouched data hL hb 22 (by omega)
  have hWpos : 1 ≤ (h_BMP_BIT_get4 data 18).toNat := by omega
  have hHpos : 1 ≤ (h_BMP_BIT_get4 data 22).toNat := by omega
  have hSpos : 1 ≤ (bmpRowStride (h_BMP_BIT_get4 data 18)).toNat := by omega
  have h3WS : 3 * (h_BMP_BIT_get4 data 18).toNat ≤
      (bmpRowStride (h_BMP_BIT_get4 data 18)).toNat := by omega
  have h3WH : 3 * ((h_BMP_BIT_get4 data 18).toNat * (h_BMP_BIT_get4 data 22).toNat) ≤
      (bmpRowStride (h_BMP_BIT_get4 data 18)).toNat * (h_BMP_BIT_get4 data 22).toNat := by
    have e : 3 * ((h_BMP_BIT_get4 data 18).toNat * (h_BMP_BIT_get4 data 22).toNat) =
        (3 * (h_BMP_BIT_get4 data 18).toNat) * (h_BMP_BIT_get4 data 22).toNat := by ring
    rw [e]
    exact Nat.mul_le_mul_right _ h3WS
  rw [h_iBMP_BIT_eq_of_accept (h_BMP_BIT data) (by omega) hib, e18, e22,
    List.drop_eq_nil_of_le (by rw [hfwdlen]; omega), List.append_nil]
  apply list_eq_of_getD
  · simp only [List.length_append, List.length_take, List.length_map, List.length_range,
      bmpRestoreHeader_length, hfwdlen]
    omega
  · intro i hi
    have hi' : i < 54 + (bmpRowStride (h_BMP_BIT_get4 data 18)).toNat *
        (h_BMP_BIT_get4 data 22).toNat := by
      simp only [List.length_append, List.length_take, List.length_map, List.length_range,
        bmpRestoreHeader_length, hfwdlen] at hi
      omega
    rcases lt_or_ge i 54 with h54 | h54
    · rw [getD_append_left _ _ _ (by
        rw [List.length_take, bmpRestoreHeader_length, hfwdlen]
        omega), getD_take _ _ _ h54]
      exact restore_fwd_header data hwf hacc i h54
    · rw [show i = 54 + (i - 54) from by omega,
        getD_append_offset54 _ _ (by
          rw [List.length_take, bmpRestoreHeader_length, hfwdlen]
          omega) (i - 54),
        getD_range_map _ _ _ (by omega)]
      have hag : ∀ u, u < 3 * ((h_BMP_BIT_get4 data 18).toNat *
          (h_BMP_BIT_get4 data 22).toNat) →
          (h_BMP_BIT data).getD (54 + u) 0 =
          bmpEncodePix (fun t => data.getD (54 + t) 0)
            (bmpRowStride (h_BMP_BIT_get4 data 18)).toNat
            (h_BMP_BIT_get4 data 18).toNat (h_BMP_BIT_get4 data 22).toNat u := by
        intro u hu
        exact fwd_getD_pix data hL hb u (by omega)
      have hdm : i - 54 = (i - 54) / (bmpRowStride (h_BMP_BIT_get4 data 18)).toNat *
          (bmpRowStride (h_BMP_BIT_get4 data 18)).toNat +
          (i - 54) % (bmpRowStride (h_BMP_BIT_get4 data 18)).toNat := by
        rw [Nat.mul_comm]
        exact (Nat.div_add_mod _ _).symm
      have hy : (i - 54) / (bmpRowStride (h_BMP_BIT_get4 data 18)).toNat <
          (h_BMP_BIT_get4 data 22).toNat :=
        Nat.div_lt_of_lt_mul (by omega)
      have hr : (i - 54) % (bmpRowStride (h_BMP_BIT_get4 data 18)).toNat <
          (bmpRowStride (h_BMP_BIT_get4 data 18)).toNat := Nat.mod_lt _ (by omega)
      rw [hdm, bmpDecodePix_pix (fun t => data.getD (54 + t) 0) _ _ _ _ hWpos
        (fun u => wf_getD data hwf _) hag _ _ hy hr]
      split_ifs with hcase
      · rfl
      · exact (hpad _ hy _ (by omega) hr).symm

set_option maxRecDepth 1000000 in
/-- C1 as stated (unconditional byte-for-byte round trip on every valid
buffer) is false: `bmpSamplePad` is accepted but its single per-row
padding byte is 7; both stages force padding bytes to zero, so the round
trip does not return the original buffer. -/
theorem claim_C1_counterexample :
    bmpAccept bmpSamplePad = true ∧
    h_iBMP_BIT (h_BMP_BIT bmpSamplePad) ≠ bmpSamplePad := by decide

set_option maxRecDepth 1000000 in
/-- Witness for C1 at the valid sample buffer, whose padding byte is
zero. -/
theorem claim_C1_witness :
    h_iBMP_BIT (h_BMP_BIT bmpSample) = bmpSample :=
  claim_C1 bmpSample (by decide) (by decide) (by decide) (by decide)
